import Mathlib

/-!
# Sudoku engine of `src/script.js`

A shallow embedding of `SudokuEngine` (`isValid`, `solve`, `generatePuzzle`).

* A board is a list of integers; reading `board[i]` is `board[i]?`, so that an
  index outside the array reads as `none` (JavaScript `undefined`), which is
  `===` to no number.
* `Math.random` is replaced by two oracles.  `ord k` is the array produced by
  the `k`-th evaluation of `[1..9].sort(() => Math.random() - 0.5)`, and
  `draw d` is the `d`-th value of `Math.floor(Math.random() * 81)`.
* Loops that need not terminate, and the recursion of `solve`, carry a fuel
  argument; running out of fuel is `none`.
-/

namespace Sudoku

/-- A board: the flat array of cells. -/
abbrev Board := List Int

/-- The array `Array(81).fill(0)`. -/
def zeroBoard : Board := List.replicate 81 0

/-- The literal `[1, 2, 3, 4, 5, 6, 7, 8, 9]` that `solve` shuffles. -/
def digits : List Int := [1, 2, 3, 4, 5, 6, 7, 8, 9]

/-- Row of a cell index (data model). -/
def rowOf (i : Nat) : Nat := i / 9

/-- Column of a cell index (data model). -/
def colOf (i : Nat) : Nat := i % 9

/-- Box number of a cell index (data model): `⌊row/3⌋*3 + ⌊col/3⌋`. -/
def boxOf (i : Nat) : Nat := rowOf i / 3 * 3 + colOf i / 3

/-- The index read by the third test of the loop body of `isValid`. -/
def boxCell (boxRow boxCol i : Nat) : Nat := (boxRow + i / 3) * 9 + (boxCol + i % 3)

/-- The `for (let i = 0; i < 9; i++)` loop of `isValid`, started at `i` with
`n` iterations left. -/
def isValidLoop (board : Board) (row col boxRow boxCol : Nat) (num : Int) : Nat → Nat → Bool
  | 0, _ => true
  | n + 1, i =>
    if board[row * 9 + i]? = some num then false
    else if board[i * 9 + col]? = some num then false
    else if board[boxCell boxRow boxCol i]? = some num then false
    else isValidLoop board row col boxRow boxCol num n (i + 1)

/-- The method `SudokuEngine.isValid(board, index, num)`. -/
def isValid (board : Board) (index : Nat) (num : Int) : Bool :=
  let row := index / 9
  let col := index % 9
  let boxRow := row / 3 * 3
  let boxCol := col / 3 * 3
  isValidLoop board row col boxRow boxCol num 9 0

/-- The scan `for (let i = 0; i < 81; i++) if (board[i] === 0)` of `solve`,
started at `i` with `n` iterations left: the first empty cell, if any. -/
def firstEmptyFrom (board : Board) : Nat → Nat → Option Nat
  | 0, _ => none
  | n + 1, i => if board[i]? = some 0 then some i else firstEmptyFrom board n (i + 1)

/-- The first index in `0..80` holding `0`. -/
def firstEmpty (board : Board) : Option Nat := firstEmptyFrom board 81 0

/-- Outcome of a call of `solve`: the returned boolean, the board as the call
leaves it, and the number of shuffles consumed so far. -/
abbrev SolveResult := Bool × Board × Nat

/-- The loop `for (let num of nums)` of `solve` at cell `i`; `recur` is the
recursive call `this.solve(board)`. -/
def tryNums (recur : Board → Nat → Option SolveResult) (i : Nat) :
    List Int → Board → Nat → Option SolveResult
  | [], board, k => some (false, board, k)
  | num :: rest, board, k =>
    if isValid board i num then
      match recur (board.set i num) k with
      | none => none
      | some (true, board', k') => some (true, board', k')
      | some (false, board', k') => tryNums recur i rest (board'.set i 0) k'
    else tryNums recur i rest board k

/-- The method `SudokuEngine.solve(board)`, with `ord k` the `k`-th shuffled candidate
order. -/
def solve (ord : Nat → List Int) : Nat → Board → Nat → Option SolveResult
  | 0, _, _ => none
  | fuel + 1, board, k =>
    match firstEmpty board with
    | none => some (true, board, k)
    | some i => tryNums (solve ord fuel) i (ord k) board (k + 1)

/-- The method `Game.isRelated(idx1, idx2)`: same row, same column or same box. -/
def isRelated (idx1 idx2 : Nat) : Bool :=
  let r1 := idx1 / 9
  let c1 := idx1 % 9
  let r2 := idx2 / 9
  let c2 := idx2 % 9
  let b1 := r1 / 3 * 3 + c1 / 3
  let b2 := r2 / 3 * 3 + c2 / 3
  r1 == r2 || c1 == c2 || b1 == b2

/-- A value that `difficultyMap[level]` can evaluate to. -/
inductive JSValue
  /-- A number: one of the four own properties of the literal. -/
  | number (n : Nat)
  /-- A function or object inherited from `Object.prototype`. -/
  | object
  /-- The value `undefined`: no such property. -/
  | undefined
  deriving DecidableEq

/-- The property names a plain object literal inherits from
`Object.prototype`. -/
def objectPrototypeKeys : List String :=
  ["constructor", "hasOwnProperty", "isPrototypeOf", "propertyIsEnumerable",
   "toLocaleString", "toString", "valueOf", "__proto__",
   "__defineGetter__", "__defineSetter__", "__lookupGetter__", "__lookupSetter__"]

/-- The property read `difficultyMap[level]` on the object literal of
`generatePuzzle`: own properties first, then the prototype. -/
def difficultyMap (level : String) : JSValue :=
  if level = "easy" then .number 35
  else if level = "medium" then .number 45
  else if level = "hard" then .number 52
  else if level = "expert" then .number 58
  else if level ∈ objectPrototypeKeys then .object
  else .undefined

/-- JavaScript truthiness of a looked-up value. -/
def JSValue.truthy : JSValue → Bool
  | .number n => n != 0
  | .object => true
  | .undefined => false

/-- The initialiser `difficultyMap[level] || 35` of `holes`. -/
def holesFor (level : String) : JSValue :=
  if (difficultyMap level).truthy then difficultyMap level else .number 35

/-- The test `attempts < holes`: a function or object converts to `NaN`, and
every comparison with `NaN` is false. -/
def attemptsLt (attempts : Nat) : JSValue → Bool
  | .number n => attempts < n
  | .object => false
  | .undefined => false

/-- The loop `while (attempts < holes)` of `generatePuzzle`; `draw d` is the
`d`-th value of `Math.floor(Math.random() * 81)`.  Returns the puzzle and the
counter `attempts` at loop exit. -/
def clearHoles (draw : Nat → Fin 81) (holes : JSValue) :
    Nat → Board → Nat → Nat → Option (Board × Nat)
  | 0, _, _, _ => none
  | fuel + 1, puzzle, attempts, d =>
    if attemptsLt attempts holes then
      let idx := (draw d).val
      if puzzle[idx]? ≠ some 0 then
        clearHoles draw holes fuel (puzzle.set idx 0) (attempts + 1) (d + 1)
      else clearHoles draw holes fuel puzzle attempts (d + 1)
    else some (puzzle, attempts)

/-- The method `SudokuEngine.generatePuzzle(level)`: the pair `(puzzle, solution)`.  The
boolean returned by `solve` is discarded, as in the source. -/
def generatePuzzle (ord : Nat → List Int) (draw : Nat → Fin 81) (fuel : Nat)
    (level : String) : Option (Board × Board) :=
  match solve ord fuel zeroBoard 0 with
  | none => none
  | some (_, fullBoard, _) =>
    match clearHoles draw (holesFor level) fuel fullBoard 0 0 with
    | none => none
    | some (puzzle, _) => some (puzzle, fullBoard)

/-! ## The game session

The fields of the object `Game` that its session operations read and write.
The DOM, the timer and `localStorage` are left out: no operation modelled
here reads them. -/

/-- The constant `Game.maxMistakes`. -/
def maxMistakes : Nat := 3

/-- The mutable fields of `Game`.  The array `history` is used as a stack by
`push` and `pop`; it is kept here with the most recent snapshot first. -/
structure GameState where
  /-- The field `grid`. -/
  grid : Board
  /-- The field `solution`. -/
  solution : Board
  /-- The field `initialGrid`: the given numbers. -/
  initialGrid : Board
  /-- The field `history`, most recent snapshot first. -/
  history : List Board
  /-- The field `selectedIdx`; `none` is `null`. -/
  selectedIdx : Option Nat
  /-- The field `mistakes`. -/
  mistakes : Nat
  /-- The field `hints`. -/
  hints : Nat
  /-- The field `difficulty`. -/
  difficulty : String

/-- The method `Game.startNewGame()`, for the value `difficulty` of
`this.difficulty`. -/
def startNewGame (ord : Nat → List Int) (draw : Nat → Fin 81) (fuel : Nat)
    (difficulty : String) : Option GameState :=
  match generatePuzzle ord draw fuel difficulty with
  | none => none
  | some (puzzle, solution) =>
    some ⟨puzzle, solution, puzzle, [], none, 0, 3, difficulty⟩

/-- The method `Game.selectCell(idx)`: only `selectedIdx` changes. -/
def selectCell (s : GameState) (idx : Nat) : GameState :=
  ⟨s.grid, s.solution, s.initialGrid, s.history, some idx, s.mistakes, s.hints, s.difficulty⟩

/-- The method `Game.updateMistakeUI()`: the two repeat counts, or `none` when
`String.prototype.repeat` throws a `RangeError` for a negative count. -/
def updateMistakeUI (s : GameState) : Option (Nat × Nat) :=
  let count : Int := (maxMistakes : Int) - (s.mistakes : Int)
  if count < 0 then none else some (count.toNat, s.mistakes)

/-- The method `Game.handleInput(num)`.  In the wrong-digit branch the calls
`updateMistakeUI()` and `endGame(false)` write no field; an exception thrown
by `updateMistakeUI()` leaves the fields as they are after `mistakes++`. -/
def handleInput (s : GameState) (num : Int) : GameState :=
  match s.selectedIdx with
  | none => s
  | some sel =>
    if s.initialGrid[sel]? ≠ some 0 then s
    else if s.solution[sel]? = some num then
      ⟨s.grid.set sel num, s.solution, s.initialGrid, s.grid :: s.history, s.selectedIdx,
        s.mistakes, s.hints, s.difficulty⟩
    else
      ⟨s.grid, s.solution, s.initialGrid, s.grid :: s.history, s.selectedIdx,
        s.mistakes + 1, s.hints, s.difficulty⟩

/-- The method `Game.undo()`. -/
def undo (s : GameState) : GameState :=
  match s.history with
  | [] => s
  | snapshot :: rest =>
    ⟨snapshot, s.solution, s.initialGrid, rest, s.selectedIdx, s.mistakes, s.hints,
      s.difficulty⟩

/-- The method `Game.erase()`. -/
def erase (s : GameState) : GameState :=
  match s.selectedIdx with
  | none => s
  | some sel =>
    if s.initialGrid[sel]? = some 0 then
      ⟨s.grid.set sel 0, s.solution, s.initialGrid, s.grid :: s.history, s.selectedIdx,
        s.mistakes, s.hints, s.difficulty⟩
    else s

/-- The method `Game.useHint()`.  When `solution[selectedIdx]` is `undefined`
the source passes `undefined` on; a board of integers cannot hold it, and the
state is left unchanged here (the case needs a solution shorter than the
grid). -/
def useHint (s : GameState) : GameState :=
  match s.selectedIdx with
  | none => s
  | some sel =>
    if 0 < s.hints ∧ s.grid[sel]? = some 0 then
      match s.solution[sel]? with
      | none => s
      | some correctVal =>
        let s1 := handleInput s correctVal
        ⟨s1.grid, s1.solution, s1.initialGrid, s1.history, s1.selectedIdx, s1.mistakes,
          s1.hints - 1, s1.difficulty⟩
    else s

/-- The test `!this.grid.includes(0)` of `Game.checkWin()`: whether
`endGame(true)` is called. -/
def checkWin (s : GameState) : Bool := !s.grid.contains 0

/-- A user action on the session. -/
inductive Action
  /-- A click on cell `idx`. -/
  | selectCell (idx : Nat)
  /-- A digit from the number pad or the keyboard. -/
  | handleInput (num : Int)
  /-- The erase button, Backspace or Delete. -/
  | erase
  /-- The undo button or Ctrl+Z. -/
  | undo
  /-- The hint button. -/
  | useHint

/-- One action applied to the session. -/
def step (s : GameState) : Action → GameState
  | .selectCell idx => selectCell s idx
  | .handleInput num => handleInput s num
  | .erase => erase s
  | .undo => undo s
  | .useHint => useHint s

/-- A sequence of actions applied in order. -/
def run (s : GameState) (actions : List Action) : GameState := actions.foldl step s

/-! ## Specification vocabulary -/

/-- Number of cells of a board that are not `0`. -/
def countFilled (b : Board) : Nat := b.countP (fun v => v != 0)

/-- The cells of row `u`. -/
def rowCells (u : Nat) : List Nat := (List.range 81).filter (fun i => rowOf i == u)

/-- The cells of column `u`. -/
def colCells (u : Nat) : List Nat := (List.range 81).filter (fun i => colOf i == u)

/-- The cells of box `u`. -/
def boxCells (u : Nat) : List Nat := (List.range 81).filter (fun i => boxOf i == u)

/-- The values a board holds at a list of cells. -/
def valuesAt (b : Board) (cells : List Nat) : List (Option Int) := cells.map (fun i => b[i]?)

/-- Some value other than `0` is repeated within a row, a column or a box. -/
def Contradictory (b : Board) : Prop :=
  ∃ i j v, i < 81 ∧ j < 81 ∧ i ≠ j ∧ isRelated i j = true ∧ v ≠ 0 ∧
    b[i]? = some v ∧ b[j]? = some v

/-- The board `F` fills the empty cells of `b`: it keeps the cells of `b` that are not
`0`, and puts in each empty cell a digit `1..9` found in no other cell of `F`
in the same row, column or box. -/
def Fills (b F : Board) : Prop :=
  F.length = b.length ∧
  ∀ i, i < 81 →
    (b[i]? ≠ some 0 → F[i]? = b[i]?) ∧
    (b[i]? = some 0 → ∃ v, F[i]? = some v ∧ v ∈ digits ∧
      ∀ j, j < 81 → j ≠ i → isRelated i j = true → F[j]? ≠ some v)

/-- The empty cells of a board can be filled one placement at a time, each
placement of a digit `1..9` into an empty cell passing `isValid` on the board
as it then is. -/
inductive CanFill : Board → Prop
  | full (b : Board) : (∀ i, i < 81 → b[i]? ≠ some 0) → CanFill b
  | place (b : Board) (i : Nat) (v : Int) : i < 81 → b[i]? = some 0 → v ∈ digits →
      isValid b i v = true → CanFill (b.set i v) → CanFill b

/-- A grid of the session is well formed: it has 81 cells, each cell in
`0..80` is `0` or the cell of the solution, and each given cell is as
given. -/
def GridOk (solution initialGrid g : Board) : Prop :=
  g.length = 81 ∧
  ∀ i, i < 81 →
    (g[i]? = some 0 ∨ g[i]? = solution[i]?) ∧
    (initialGrid[i]? ≠ some 0 → g[i]? = initialGrid[i]?)

/-- The session invariant: the grid and every snapshot of the history are
well formed. -/
def SessionInv (s : GameState) : Prop :=
  s.solution.length = 81 ∧ s.initialGrid.length = 81 ∧
  GridOk s.solution s.initialGrid s.grid ∧
  ∀ snapshot, snapshot ∈ s.history → GridOk s.solution s.initialGrid snapshot

/-! ## Concrete data used in examples -/

/-- A complete grid, used as a concrete example. -/
def sampleSolution : Board :=
  [1, 2, 3, 4, 5, 6, 7, 8, 9,
   4, 5, 6, 7, 8, 9, 1, 2, 3,
   7, 8, 9, 1, 2, 3, 4, 5, 6,
   2, 3, 4, 5, 6, 7, 8, 9, 1,
   5, 6, 7, 8, 9, 1, 2, 3, 4,
   8, 9, 1, 2, 3, 4, 5, 6, 7,
   3, 4, 5, 6, 7, 8, 9, 1, 2,
   6, 7, 8, 9, 1, 2, 3, 4, 5,
   9, 1, 2, 3, 4, 5, 6, 7, 8]

/-- Candidate orders under which the `k`-th shuffle puts the digit of
`sampleSolution` at cell `k` first: the digits rotated. -/
def sampleOrd (k : Nat) : List Int := digits.rotate ((sampleSolution.getD k 1).toNat - 1)

/-- The digit of `sampleSolution` at cell `i`, in closed form. -/
def sampleCell (i : Nat) : Int := ((3 * (i / 9 % 3) + i / 9 / 3 + i % 9) % 9 + 1 : Nat)

/-- The board reached after `n` placements under `sampleOrd`: the first `n`
cells of `sampleSolution`, then zeros. -/
def samplePrefix (n : Nat) : Board :=
  (List.range 81).map (fun i => if i < n then sampleCell i else 0)

/-- The identity candidate order at every shuffle. -/
def idOrd (_ : Nat) : List Int := digits

/-- Index draws `0, 1, 2, ...`, wrapping at 81. -/
def sampleDraw (d : Nat) : Fin 81 := ⟨d % 81, Nat.mod_lt d (by decide)⟩

/-- Index draws that are all `0`. -/
def zeroDraw (_ : Nat) : Fin 81 := ⟨0, by decide⟩

/-- The grid `sampleSolution` with its first 35 cells cleared. -/
def samplePuzzle : Board :=
  List.replicate 35 0 ++
  [                        1,
   5, 6, 7, 8, 9, 1, 2, 3, 4,
   8, 9, 1, 2, 3, 4, 5, 6, 7,
   3, 4, 5, 6, 7, 8, 9, 1, 2,
   6, 7, 8, 9, 1, 2, 3, 4, 5,
   9, 1, 2, 3, 4, 5, 6, 7, 8]

/-- A completely filled board whose every cell holds 1. -/
def onesBoard : Board := List.replicate 81 1

/-- The grid `sampleSolution` with cell 0 changed from 1 to 2, so that row 0
holds 2 twice, and with cell 80 emptied. -/
def dupBoard : Board :=
  [2, 2, 3, 4, 5, 6, 7, 8, 9,
   4, 5, 6, 7, 8, 9, 1, 2, 3,
   7, 8, 9, 1, 2, 3, 4, 5, 6,
   2, 3, 4, 5, 6, 7, 8, 9, 1,
   5, 6, 7, 8, 9, 1, 2, 3, 4,
   8, 9, 1, 2, 3, 4, 5, 6, 7,
   3, 4, 5, 6, 7, 8, 9, 1, 2,
   6, 7, 8, 9, 1, 2, 3, 4, 5,
   9, 1, 2, 3, 4, 5, 6, 7, 0]

/-- The grid `sampleSolution` with cell 7 changed from 8 to 7 and cells 79
and 80 emptied: cell 79 accepts 8 only, after which cell 80 accepts nothing. -/
def stuckBoard : Board :=
  [1, 2, 3, 4, 5, 6, 7, 7, 9,
   4, 5, 6, 7, 8, 9, 1, 2, 3,
   7, 8, 9, 1, 2, 3, 4, 5, 6,
   2, 3, 4, 5, 6, 7, 8, 9, 1,
   5, 6, 7, 8, 9, 1, 2, 3, 4,
   8, 9, 1, 2, 3, 4, 5, 6, 7,
   3, 4, 5, 6, 7, 8, 9, 1, 2,
   6, 7, 8, 9, 1, 2, 3, 4, 5,
   9, 1, 2, 3, 4, 5, 6, 0, 0]

/-- The session right after `startNewGame()` returned `samplePuzzle` and
`sampleSolution` for the difficulty `'easy'`. -/
def sampleStart : GameState :=
  ⟨samplePuzzle, sampleSolution, samplePuzzle, [], none, 0, 3, "easy"⟩

/-! ## `isValid` -/

theorem isRelated_iff (i j : Nat) :
    isRelated i j = true ↔ rowOf j = rowOf i ∨ colOf j = colOf i ∨ boxOf j = boxOf i := by
  simp only [isRelated, rowOf, colOf, boxOf, Bool.or_eq_true, beq_iff_eq]
  omega

theorem isRelated_symm (i j : Nat) : isRelated i j = isRelated j i := by
  rw [Bool.eq_iff_iff, isRelated_iff, isRelated_iff]
  omega

theorem isValidLoop_iff (board : Board) (row col boxRow boxCol : Nat) (num : Int) (n i : Nat) :
    isValidLoop board row col boxRow boxCol num n i = true ↔
      ∀ t, i ≤ t → t < i + n →
        board[row * 9 + t]? ≠ some num ∧ board[t * 9 + col]? ≠ some num ∧
          board[boxCell boxRow boxCol t]? ≠ some num := by
  induction n generalizing i with
  | zero =>
    simp only [isValidLoop, true_iff]
    intro t h1 h2
    omega
  | succ n ih =>
    rw [isValidLoop]
    constructor
    · intro h t h1 h2
      split at h
      · cases h
      split at h
      · cases h
      split at h
      · cases h
      rcases Nat.eq_or_lt_of_le h1 with h3 | h3
      · subst h3
        exact ⟨by assumption, by assumption, by assumption⟩
      · exact (ih (i + 1)).1 h t h3 (by omega)
    · intro h
      obtain ⟨h1, h2, h3⟩ := h i (Nat.le_refl i) (by omega)
      rw [if_neg h1, if_neg h2, if_neg h3]
      exact (ih (i + 1)).2 (fun t ht1 ht2 => h t (by omega) (by omega))

/-- What the loop of `isValid` tests, iteration by iteration. -/
theorem isValid_iff_scan (board : Board) (index : Nat) (num : Int) :
    isValid board index num = true ↔
      ∀ t, t < 9 →
        board[index / 9 * 9 + t]? ≠ some num ∧ board[t * 9 + index % 9]? ≠ some num ∧
          board[boxCell (index / 9 / 3 * 3) (index % 9 / 3 * 3) t]? ≠ some num := by
  simp only [isValid]
  rw [isValidLoop_iff]
  constructor
  · intro h t ht
    exact h t (Nat.zero_le t) (by omega)
  · intro h t _ ht
    exact h t (by omega)

/-- The box expression of the loop stays inside the box of `index`. -/
theorem boxCell_mem (index t : Nat) (hi : index < 81) (ht : t < 9) :
    boxCell (index / 9 / 3 * 3) (index % 9 / 3 * 3) t < 81 ∧
      boxOf (boxCell (index / 9 / 3 * 3) (index % 9 / 3 * 3) t) = boxOf index := by
  simp only [boxCell, boxOf, rowOf, colOf]
  omega

/-- Every cell of the box of `index` is hit by the box expression. -/
theorem boxCell_surj (index j : Nat) (hb : boxOf j = boxOf index) :
    boxCell (index / 9 / 3 * 3) (index % 9 / 3 * 3) (j / 9 % 3 * 3 + j % 9 % 3) = j := by
  simp only [boxCell, boxOf, rowOf, colOf] at *
  omega

/-- The scan of `isValid` covers exactly the cells related to `index`. -/
theorem isValid_iff (board : Board) (index : Nat) (num : Int) (hi : index < 81) :
    isValid board index num = true ↔
      ∀ j, j < 81 → isRelated index j = true → board[j]? ≠ some num := by
  rw [isValid_iff_scan]
  constructor
  · intro h j hj hr
    rw [isRelated_iff] at hr
    rcases hr with hr | hr | hr
    · have e : index / 9 * 9 + j % 9 = j := by
        simp only [rowOf] at hr
        omega
      have := (h (j % 9) (Nat.mod_lt _ (by decide))).1
      rwa [e] at this
    · have e : j / 9 * 9 + index % 9 = j := by
        simp only [colOf] at hr
        omega
      have := (h (j / 9) (by omega)).2.1
      rwa [e] at this
    · have := (h (j / 9 % 3 * 3 + j % 9 % 3) (by omega)).2.2
      rwa [boxCell_surj index j hr] at this
  · intro h t ht
    refine ⟨h _ (by omega) ?_, h _ (by omega) ?_, h _ (boxCell_mem index t hi ht).1 ?_⟩
    · rw [isRelated_iff]
      left
      simp only [rowOf]
      omega
    · rw [isRelated_iff]
      right; left
      simp only [colOf]
      omega
    · rw [isRelated_iff]
      right; right
      exact (boxCell_mem index t hi ht).2

theorem isRelated_self (i : Nat) : isRelated i i = true := by
  rw [isRelated_iff]
  exact Or.inl rfl

/-- The scan reads the cell `index` itself. -/
theorem isValid_cell_ne (board : Board) (index : Nat) (num : Int) (hi : index < 81)
    (h : isValid board index num = true) : board[index]? ≠ some num :=
  (isValid_iff board index num hi).1 h index hi (isRelated_self index)

/-! ## Reading and writing cells -/

theorem lt_length_of_getElem? {b : Board} {i : Nat} {v : Int} (h : b[i]? = some v) :
    i < b.length := by
  rcases Nat.lt_or_ge i b.length with h1 | h1
  · exact h1
  · rw [List.getElem?_eq_none h1] at h
    cases h

theorem getElem?_set_cell (b : Board) (i j : Nat) (c : Int) (hi : b[i]? = some 0) :
    (b.set i c)[j]? = if j = i then some c else b[j]? := by
  rw [List.getElem?_set]
  by_cases h : i = j
  · subst h
    simp [lt_length_of_getElem? hi]
  · have h2 : ¬ j = i := fun e => h e.symm
    simp [h, h2]

/-- Writing `0` back into a cell that held `0` gives the board back. -/
theorem set_restore (b : Board) (i : Nat) (c : Int) (hi : b[i]? = some 0) :
    (b.set i c).set i 0 = b := by
  rw [List.set_set]
  apply List.ext_getElem?
  intro j
  rw [getElem?_set_cell b i j 0 hi]
  split
  · next h => rw [h, hi]
  · rfl

theorem count_zero_set (b : Board) (i : Nat) (c : Int) (hi : b[i]? = some 0) (hc : c ≠ 0) :
    (b.set i c).count 0 + 1 = b.count 0 := by
  have hl := lt_length_of_getElem? hi
  have hv : b[i] = 0 := by
    rw [List.getElem?_eq_getElem hl] at hi
    exact Option.some.inj hi
  have hpos : 0 < b.count 0 := by
    rw [List.count_pos_iff]
    rw [← hv]
    exact List.getElem_mem hl
  rw [List.count_set c 0 b i hl, hv]
  simp [hc]
  omega

/-! ## The scan for the first empty cell -/

theorem firstEmptyFrom_some (b : Board) (n i j : Nat) (h : firstEmptyFrom b n i = some j) :
    i ≤ j ∧ j < i + n ∧ b[j]? = some 0 ∧ ∀ t, i ≤ t → t < j → b[t]? ≠ some 0 := by
  induction n generalizing i with
  | zero => simp [firstEmptyFrom] at h
  | succ n ih =>
    rw [firstEmptyFrom] at h
    split at h
    · next h0 =>
      cases h
      exact ⟨Nat.le_refl _, by omega, h0, fun t h1 h2 => by omega⟩
    · next h0 =>
      obtain ⟨h1, h2, h3, h4⟩ := ih (i + 1) h
      refine ⟨by omega, by omega, h3, fun t ht1 ht2 => ?_⟩
      rcases Nat.eq_or_lt_of_le ht1 with e | e
      · subst e
        exact h0
      · exact h4 t e ht2

theorem firstEmptyFrom_none (b : Board) (n i : Nat) (h : firstEmptyFrom b n i = none) :
    ∀ t, i ≤ t → t < i + n → b[t]? ≠ some 0 := by
  induction n generalizing i with
  | zero =>
    intro t h1 h2
    omega
  | succ n ih =>
    rw [firstEmptyFrom] at h
    split at h
    · cases h
    · next h0 =>
      intro t h1 h2
      rcases Nat.eq_or_lt_of_le h1 with e | e
      · subst e
        exact h0
      · exact ih (i + 1) h t e (by omega)

theorem firstEmpty_some (b : Board) (j : Nat) (h : firstEmpty b = some j) :
    j < 81 ∧ b[j]? = some 0 ∧ ∀ t, t < j → b[t]? ≠ some 0 := by
  obtain ⟨_, h2, h3, h4⟩ := firstEmptyFrom_some b 81 0 j h
  exact ⟨by omega, h3, fun t ht => h4 t (Nat.zero_le t) ht⟩

theorem firstEmpty_none (b : Board) (h : firstEmpty b = none) :
    ∀ t, t < 81 → b[t]? ≠ some 0 := fun t ht =>
  firstEmptyFrom_none b 81 0 h t (Nat.zero_le t) (by omega)

theorem firstEmpty_eq_none_of_full (b : Board) (h : ∀ t, t < 81 → b[t]? ≠ some 0) :
    firstEmpty b = none := by
  cases e : firstEmpty b with
  | none => rfl
  | some j =>
    obtain ⟨h1, h2, _⟩ := firstEmpty_some b j e
    exact absurd h2 (h j h1)

/-! ## The candidate loop of `solve` -/

/-- What the candidate loop does, given that a failed recursive call leaves
the board as it received it. -/
theorem tryNums_spec (recur : Board → Nat → Option SolveResult)
    (hrec : ∀ b k F k', recur b k = some (false, F, k') → F = b)
    (i : Nat) (b : Board) (hb : b[i]? = some 0) (l : List Int) (k : Nat)
    (r : Bool) (F : Board) (k' : Nat) (h : tryNums recur i l b k = some (r, F, k')) :
    (r = false → F = b ∧ ∀ c ∈ l, isValid b i c = true →
        ∃ k1 k2, recur (b.set i c) k1 = some (false, b.set i c, k2)) ∧
    (r = true → ∃ c ∈ l, isValid b i c = true ∧
        ∃ k1 k2, recur (b.set i c) k1 = some (true, F, k2)) := by
  induction l generalizing k with
  | nil =>
    simp only [tryNums, Option.some.injEq, Prod.mk.injEq] at h
    obtain ⟨h1, h2, _⟩ := h
    subst h1 h2
    simp
  | cons c rest ih =>
    rw [tryNums] at h
    split at h
    · next hv =>
      split at h
      · cases h
      · next F1 k1 e =>
        simp only [Option.some.injEq, Prod.mk.injEq] at h
        obtain ⟨h1, h2, _⟩ := h
        subst h1 h2
        refine ⟨fun hf => (by cases hf), fun _ => ⟨c, List.mem_cons_self _ _, hv, k, k1, e⟩⟩
      · next F1 k1 e =>
        have hF1 := hrec _ _ _ _ e
        subst hF1
        rw [set_restore b i c hb] at h
        obtain ⟨ih1, ih2⟩ := ih k1 h
        constructor
        · intro hr
          obtain ⟨hF, hall⟩ := ih1 hr
          refine ⟨hF, fun d hd hvd => ?_⟩
          rcases List.mem_cons.1 hd with e1 | e1
          · subst e1
            exact ⟨k, k1, e⟩
          · exact hall d e1 hvd
        · intro hr
          obtain ⟨d, hd, hvd, hex⟩ := ih2 hr
          exact ⟨d, List.mem_cons_of_mem _ hd, hvd, hex⟩
    · next hv =>
      obtain ⟨ih1, ih2⟩ := ih k h
      constructor
      · intro hr
        obtain ⟨hF, hall⟩ := ih1 hr
        refine ⟨hF, fun d hd hvd => ?_⟩
        rcases List.mem_cons.1 hd with e1 | e1
        · subst e1
          exact absurd hvd hv
        · exact hall d e1 hvd
      · intro hr
        obtain ⟨d, hd, hvd, hex⟩ := ih2 hr
        exact ⟨d, List.mem_cons_of_mem _ hd, hvd, hex⟩

/-- The candidate loop returns as soon as every recursive call it makes
returns. -/
theorem tryNums_total (recur : Board → Nat → Option SolveResult)
    (hrec : ∀ b k F k', recur b k = some (false, F, k') → F = b)
    (i : Nat) (b : Board) (hb : b[i]? = some 0)
    (htot : ∀ c, isValid b i c = true → ∀ k, ∃ res, recur (b.set i c) k = some res)
    (l : List Int) (k : Nat) : ∃ res, tryNums recur i l b k = some res := by
  induction l generalizing k with
  | nil => exact ⟨_, rfl⟩
  | cons c rest ih =>
    rw [tryNums]
    split
    · next hv =>
      obtain ⟨⟨r, F1, k1⟩, e⟩ := htot c hv k
      rw [e]
      cases r with
      | true => exact ⟨_, rfl⟩
      | false =>
        have hF1 := hrec _ _ _ _ e
        subst hF1
        simp only
        rw [set_restore b i c hb]
        exact ih k1
    · exact ih k

/-! ## `solve` -/

theorem zero_not_mem_digits : (0 : Int) ∉ digits := by decide

theorem fills_self (b : Board) (h : ∀ i, i < 81 → b[i]? ≠ some 0) : Fills b b :=
  ⟨rfl, fun i hi => ⟨fun _ => rfl, fun h0 => absurd h0 (h i hi)⟩⟩

/-- A filling of the board after a valid placement fills the board before
it. -/
theorem fills_of_set (b F : Board) (i : Nat) (c : Int) (hi : i < 81) (hb : b[i]? = some 0)
    (hc : c ∈ digits) (hv : isValid b i c = true) (h : Fills (b.set i c) F) : Fills b F := by
  have hc0 : c ≠ 0 := fun e => zero_not_mem_digits (e ▸ hc)
  have hFi : F[i]? = some c := by
    have := (h.2 i hi).1
    rw [getElem?_set_cell b i i c hb, if_pos rfl] at this
    exact this (fun e => hc0 (Option.some.inj e))
  refine ⟨by rw [h.1, List.length_set], fun j hj => ⟨fun hne => ?_, fun h0 => ?_⟩⟩
  · have hji : j ≠ i := fun e => hne (e ▸ hb)
    have := (h.2 j hj).1
    rw [getElem?_set_cell b i j c hb, if_neg hji] at this
    exact this hne
  · by_cases hji : j = i
    · subst hji
      refine ⟨c, hFi, hc, fun t ht hne hr => ?_⟩
      by_cases ht0 : b[t]? = some 0
      · have h1 := (h.2 t ht).2
        rw [getElem?_set_cell b j t c hb, if_neg hne] at h1
        obtain ⟨w, hw1, _, hw3⟩ := h1 ht0
        have h2 := hw3 j hi (fun e => hne e.symm) (by rw [isRelated_symm]; exact hr)
        rw [hFi] at h2
        rw [hw1]
        exact fun e => h2 e.symm
      · have h1 := (h.2 t ht).1
        rw [getElem?_set_cell b j t c hb, if_neg hne] at h1
        rw [h1 ht0]
        exact (isValid_iff b j c hi).1 hv t ht hr
    · have h1 := (h.2 j hj).2
      rw [getElem?_set_cell b i j c hb, if_neg hji] at h1
      exact h1 h0

/-- A filling of a board fills the board after placing its own digit. -/
theorem fills_set_of_fills (b F : Board) (i : Nat) (c : Int) (hi : i < 81)
    (hb : b[i]? = some 0) (hF : F[i]? = some c) (h : Fills b F) : Fills (b.set i c) F := by
  refine ⟨by rw [h.1, List.length_set], fun j hj => ?_⟩
  by_cases hji : j = i
  · subst hji
    rw [getElem?_set_cell b j j c hb, if_pos rfl]
    refine ⟨fun _ => hF, fun h0 => ?_⟩
    obtain ⟨v, hv1, hv2, _⟩ := (h.2 j hi).2 hb
    rw [hF] at hv1
    rw [Option.some.inj hv1] at h0
    exact absurd (Option.some.inj h0) (fun e => zero_not_mem_digits (e ▸ hv2))
  · rw [getElem?_set_cell b i j c hb, if_neg hji]
    exact h.2 j hj

/-- The digit a filling puts in an empty cell passes `isValid` there. -/
theorem isValid_of_fills (b F : Board) (i : Nat) (c : Int) (hi : i < 81)
    (hb : b[i]? = some 0) (hF : F[i]? = some c) (h : Fills b F) : isValid b i c = true := by
  obtain ⟨v, hv1, hv2, hv3⟩ := (h.2 i hi).2 hb
  rw [hF] at hv1
  have hcv : c = v := Option.some.inj hv1
  subst hcv
  have hc0 : c ≠ 0 := fun e => zero_not_mem_digits (e ▸ hv2)
  rw [isValid_iff b i c hi]
  intro j hj hr
  by_cases hji : j = i
  · subst hji
    rw [hb]
    exact fun e => hc0 (Option.some.inj e).symm
  · by_cases h0 : b[j]? = some 0
    · rw [h0]
      exact fun e => hc0 (Option.some.inj e).symm
    · rw [← (h.2 j hj).1 h0]
      exact hv3 j hj hji hr

/-- A call of `solve` that returns `false` leaves the board as it was
given. -/
theorem solve_false_board (ord : Nat → List Int) (fuel : Nat) (b : Board) (k : Nat)
    (F : Board) (k' : Nat) (h : solve ord fuel b k = some (false, F, k')) : F = b := by
  induction fuel generalizing b k F k' with
  | zero => simp [solve] at h
  | succ fuel ih =>
    rw [solve] at h
    split at h
    · simp at h
    · next i e =>
      exact ((tryNums_spec (solve ord fuel) ih i b (firstEmpty_some b i e).2.1 (ord k) (k + 1)
        false F k' h).1 rfl).1

/-- With more fuel than empty cells, `solve` returns. -/
theorem solve_total (ord : Nat → List Int) (fuel : Nat) (b : Board) (k : Nat)
    (h : b.count 0 < fuel) : ∃ res, solve ord fuel b k = some res := by
  induction fuel generalizing b k with
  | zero => omega
  | succ fuel ih =>
    rw [solve]
    split
    · exact ⟨_, rfl⟩
    · next i e =>
      obtain ⟨hi, hb, _⟩ := firstEmpty_some b i e
      refine tryNums_total (solve ord fuel) (solve_false_board ord fuel) i b hb ?_ (ord k) (k + 1)
      intro c hv k1
      apply ih
      have hc : c ≠ 0 := by
        intro e0
        subst e0
        exact isValid_cell_ne b i 0 hi hv hb
      have := count_zero_set b i c hb hc
      omega

/-- When `solve` returns `true`, the board it leaves fills the board it was
given. -/
theorem solve_true_fills (ord : Nat → List Int) (hord : ∀ k c, c ∈ ord k → c ∈ digits)
    (fuel : Nat) (b : Board) (k : Nat) (F : Board) (k' : Nat)
    (h : solve ord fuel b k = some (true, F, k')) : Fills b F := by
  induction fuel generalizing b k F k' with
  | zero => simp [solve] at h
  | succ fuel ih =>
    rw [solve] at h
    split at h
    · next e =>
      simp only [Option.some.injEq, Prod.mk.injEq, true_and] at h
      rw [← h.1]
      exact fills_self b (firstEmpty_none b e)
    · next i e =>
      obtain ⟨hi, hb, _⟩ := firstEmpty_some b i e
      obtain ⟨c, hc, hv, k1, k2, hrec⟩ := (tryNums_spec (solve ord fuel)
        (solve_false_board ord fuel) i b hb (ord k) (k + 1) true F k' h).2 rfl
      exact fills_of_set b F i c hi hb (hord k c hc) hv (ih _ _ _ _ hrec)

/-- When `solve` returns `false`, the board it was given has no filling. -/
theorem solve_false_not_fills (ord : Nat → List Int) (hord : ∀ k c, c ∈ digits → c ∈ ord k)
    (fuel : Nat) (b : Board) (k : Nat) (F : Board) (k' : Nat)
    (h : solve ord fuel b k = some (false, F, k')) : ¬ ∃ G, Fills b G := by
  induction fuel generalizing b k F k' with
  | zero => simp [solve] at h
  | succ fuel ih =>
    rw [solve] at h
    split at h
    · simp at h
    · next i e =>
      obtain ⟨hi, hb, _⟩ := firstEmpty_some b i e
      have hall := ((tryNums_spec (solve ord fuel) (solve_false_board ord fuel) i b hb (ord k)
        (k + 1) false F k' h).1 rfl).2
      rintro ⟨G, hG⟩
      obtain ⟨v, hv1, hv2, _⟩ := (hG.2 i hi).2 hb
      obtain ⟨k1, k2, hrec⟩ := hall v (hord k v hv2) (isValid_of_fills b G i v hi hb hv1 hG)
      exact ih _ _ _ _ hrec ⟨G, fills_set_of_fills b G i v hi hb hv1 hG⟩

theorem canFill_iff_fills (b : Board) : CanFill b ↔ ∃ F, Fills b F := by
  constructor
  · intro h
    induction h with
    | full b hb => exact ⟨b, fills_self b hb⟩
    | place b i v hi hb hv hval _ ih =>
      obtain ⟨F, hF⟩ := ih
      exact ⟨F, fills_of_set b F i v hi hb hv hval hF⟩
  · rintro ⟨F, hF⟩
    generalize hn : b.count 0 = n
    induction n generalizing b with
    | zero =>
      apply CanFill.full
      intro i _ h0
      have : 0 < b.count 0 := by
        rw [List.count_pos_iff]
        exact List.getElem?_mem h0
      omega
    | succ n ih =>
      by_cases hfull : ∀ i, i < 81 → b[i]? ≠ some 0
      · exact CanFill.full b hfull
      · push_neg at hfull
        obtain ⟨i, hi, hb⟩ := hfull
        obtain ⟨v, hv1, hv2, _⟩ := (hF.2 i hi).2 hb
        have hv0 : v ≠ 0 := fun e => zero_not_mem_digits (e ▸ hv2)
        refine CanFill.place b i v hi hb hv2 (isValid_of_fills b F i v hi hb hv1 hF)
          (ih _ (fills_set_of_fills b F i v hi hb hv1 hF) ?_)
        have := count_zero_set b i v hb hv0
        omega

/-! ## Complete grids -/

theorem mem_digits_iff (v : Int) : v ∈ digits ↔ 1 ≤ v ∧ v ≤ 9 := by
  simp only [digits, List.mem_cons, List.mem_singleton, List.not_mem_nil, or_false]
  omega

/-- In a list of nine pairwise related cells of a grid whose every cell holds
a digit found in no related cell, each digit occurs exactly once. -/
theorem count_unit (F : Board) (cells : List Nat) (hnd : cells.Nodup) (hlen : cells.length = 9)
    (hlt : ∀ i ∈ cells, i < 81) (hrel : ∀ i ∈ cells, ∀ j ∈ cells, isRelated i j = true)
    (hF : ∀ i, i < 81 → ∃ v, F[i]? = some v ∧ v ∈ digits ∧
      ∀ j, j < 81 → j ≠ i → isRelated i j = true → F[j]? ≠ some v)
    (d : Int) (hd : d ∈ digits) : (valuesAt F cells).count (some d) = 1 := by
  have hnodup : (valuesAt F cells).Nodup := by
    refine List.Nodup.map_on (fun x hx y hy e => ?_) hnd
    by_contra hne
    obtain ⟨v, hv, _, hv3⟩ := hF x (hlt x hx)
    refine hv3 y (hlt y hy) (fun e2 => hne e2.symm) (hrel x hx y hy) ?_
    rw [← e, hv]
  have hsub : valuesAt F cells ⊆ digits.map some := by
    intro o ho
    obtain ⟨i, hi, rfl⟩ := List.mem_map.1 ho
    obtain ⟨v, hv, hvd, _⟩ := hF i (hlt i hi)
    rw [hv]
    exact List.mem_map_of_mem _ hvd
  have hperm : (valuesAt F cells).Perm (digits.map some) :=
    (List.subperm_of_subset hnodup hsub).perm_of_length_le (by simp [valuesAt, hlen, digits])
  unfold List.count
  rw [hperm.countP_eq]
  simp only [digits, List.mem_cons, List.mem_singleton, List.not_mem_nil, or_false] at hd
  rcases hd with rfl | rfl | rfl | rfl | rfl | rfl | rfl | rfl | rfl <;> rfl

theorem rowCells_facts (u : Nat) (hu : u < 9) :
    (rowCells u).Nodup ∧ (rowCells u).length = 9 ∧ (∀ i ∈ rowCells u, i < 81) ∧
      ∀ i ∈ rowCells u, ∀ j ∈ rowCells u, isRelated i j = true := by
  refine ⟨List.Nodup.filter _ (List.nodup_range 81), ?_, ?_, ?_⟩
  · interval_cases u <;> rfl
  · intro i hi
    simp only [rowCells, List.mem_filter, List.mem_range] at hi
    exact hi.1
  · intro i hi j hj
    simp only [rowCells, List.mem_filter, List.mem_range, beq_iff_eq] at hi hj
    rw [isRelated_iff]
    exact Or.inl (hj.2.trans hi.2.symm)

theorem colCells_facts (u : Nat) (hu : u < 9) :
    (colCells u).Nodup ∧ (colCells u).length = 9 ∧ (∀ i ∈ colCells u, i < 81) ∧
      ∀ i ∈ colCells u, ∀ j ∈ colCells u, isRelated i j = true := by
  refine ⟨List.Nodup.filter _ (List.nodup_range 81), ?_, ?_, ?_⟩
  · interval_cases u <;> rfl
  · intro i hi
    simp only [colCells, List.mem_filter, List.mem_range] at hi
    exact hi.1
  · intro i hi j hj
    simp only [colCells, List.mem_filter, List.mem_range, beq_iff_eq] at hi hj
    rw [isRelated_iff]
    exact Or.inr (Or.inl (hj.2.trans hi.2.symm))

theorem boxCells_facts (u : Nat) (hu : u < 9) :
    (boxCells u).Nodup ∧ (boxCells u).length = 9 ∧ (∀ i ∈ boxCells u, i < 81) ∧
      ∀ i ∈ boxCells u, ∀ j ∈ boxCells u, isRelated i j = true := by
  refine ⟨List.Nodup.filter _ (List.nodup_range 81), ?_, ?_, ?_⟩
  · interval_cases u <;> rfl
  · intro i hi
    simp only [boxCells, List.mem_filter, List.mem_range] at hi
    exact hi.1
  · intro i hi j hj
    simp only [boxCells, List.mem_filter, List.mem_range, beq_iff_eq] at hi hj
    rw [isRelated_iff]
    exact Or.inr (Or.inr (hj.2.trans hi.2.symm))

theorem zeroBoard_getElem? (i : Nat) (hi : i < 81) : zeroBoard[i]? = some 0 := by
  unfold zeroBoard
  rw [List.getElem?_replicate]
  simp [hi]

/-! ## Concrete runs -/

theorem sampleOrd_perm (k : Nat) : (sampleOrd k).Perm digits := List.rotate_perm _ _

theorem idOrd_perm (k : Nat) : (idOrd k).Perm digits := List.Perm.refl _

theorem samplePrefix_getElem? (n t : Nat) (ht : t < 81) :
    (samplePrefix n)[t]? = some (if t < n then sampleCell t else 0) := by
  simp [samplePrefix, List.getElem?_map, List.getElem?_range ht]

theorem samplePrefix_zero : samplePrefix 0 = zeroBoard := by
  decide!

theorem samplePrefix_full : samplePrefix 81 = sampleSolution := by
  decide!

theorem sampleCell_mem_digits (i : Nat) : sampleCell i ∈ digits := by
  rw [mem_digits_iff]
  unfold sampleCell
  omega

theorem sampleCell_ne_zero (i : Nat) : sampleCell i ≠ 0 :=
  fun e => zero_not_mem_digits (e ▸ sampleCell_mem_digits i)

/-- Related cells of `sampleSolution` hold different digits. -/
theorem sampleCell_distinct :
    ∀ i, i < 81 → ∀ j, j < 81 → j ≠ i → isRelated i j = true → sampleCell j ≠ sampleCell i := by
  decide!

/-- The `n`-th shuffle of `sampleOrd` starts with the digit of cell `n`. -/
theorem sampleOrd_head : ∀ n, n < 81 → sampleOrd n = sampleCell n :: (sampleOrd n).tail := by
  decide!

theorem firstEmpty_eq_some (b : Board) (n : Nat) (hn : n < 81) (h0 : b[n]? = some 0)
    (hbefore : ∀ t, t < n → b[t]? ≠ some 0) : firstEmpty b = some n := by
  cases e : firstEmpty b with
  | none => exact absurd h0 (firstEmpty_none b e n hn)
  | some j =>
    obtain ⟨_, h2, h3⟩ := firstEmpty_some b j e
    rcases Nat.lt_trichotomy j n with h | h | h
    · exact absurd h2 (hbefore j h)
    · rw [h]
    · exact absurd h0 (h3 n h)

theorem samplePrefix_firstEmpty (n : Nat) (hn : n < 81) :
    firstEmpty (samplePrefix n) = some n := by
  apply firstEmpty_eq_some _ n hn
  · rw [samplePrefix_getElem? n n hn, if_neg (Nat.lt_irrefl n)]
  · intro t ht
    rw [samplePrefix_getElem? n t (by omega), if_pos ht]
    exact fun e => sampleCell_ne_zero t (Option.some.inj e)

theorem samplePrefix_isValid (n : Nat) (hn : n < 81) :
    isValid (samplePrefix n) n (sampleCell n) = true := by
  rw [isValid_iff _ n _ hn]
  intro j hj hr
  rw [samplePrefix_getElem? n j hj]
  by_cases hjn : j < n
  · rw [if_pos hjn]
    exact fun e => sampleCell_distinct n hn j hj (by omega) hr (Option.some.inj e)
  · rw [if_neg hjn]
    exact fun e => sampleCell_ne_zero n (Option.some.inj e).symm

theorem samplePrefix_set (n : Nat) (hn : n < 81) :
    (samplePrefix n).set n (sampleCell n) = samplePrefix (n + 1) := by
  have hn0 : (samplePrefix n)[n]? = some 0 := by
    rw [samplePrefix_getElem? n n hn, if_neg (Nat.lt_irrefl n)]
  apply List.ext_getElem?
  intro t
  rw [getElem?_set_cell _ n t _ hn0]
  by_cases ht : t < 81
  · rw [samplePrefix_getElem? n t ht, samplePrefix_getElem? (n + 1) t ht]
    by_cases htn : t = n
    · subst htn
      simp
    · rw [if_neg htn]
      by_cases h1 : t < n
      · rw [if_pos h1, if_pos (by omega)]
      · rw [if_neg h1, if_neg (by omega)]
  · have hlen : ∀ m, (samplePrefix m).length = 81 := fun m => by simp [samplePrefix]
    rw [if_neg (by omega), List.getElem?_eq_none (by rw [hlen]; omega),
      List.getElem?_eq_none (by rw [hlen]; omega)]

/-- Under `sampleOrd` the search started at `samplePrefix n` never backtracks
and ends in `sampleSolution`. -/
theorem solve_samplePrefix (m n : Nat) (h : n + m = 81) :
    solve sampleOrd (m + 1) (samplePrefix n) n = some (true, sampleSolution, 81) := by
  induction m generalizing n with
  | zero =>
    have hn : n = 81 := by omega
    subst hn
    rw [samplePrefix_full, solve,
      firstEmpty_eq_none_of_full _ (fun i hi e => by
        rw [← samplePrefix_full, samplePrefix_getElem? 81 i hi, if_pos hi] at e
        exact sampleCell_ne_zero i (Option.some.inj e))]
  | succ m ih =>
    have hn : n < 81 := by omega
    rw [solve, samplePrefix_firstEmpty n hn]
    simp only
    rw [sampleOrd_head n hn, tryNums, if_pos (samplePrefix_isValid n hn),
      samplePrefix_set n hn, ih (n + 1) (by omega)]

/-- Under `sampleOrd` the search never backtracks and ends in
`sampleSolution` after 81 shuffles. -/
theorem solve_sample : solve sampleOrd 82 zeroBoard 0 = some (true, sampleSolution, 81) := by
  rw [← samplePrefix_zero]
  exact solve_samplePrefix 81 0 rfl

/-- The grid `sampleSolution` is a filling of the empty board. -/
theorem fills_zeroBoard_sample : Fills zeroBoard sampleSolution :=
  solve_true_fills sampleOrd (fun k _ hc => (sampleOrd_perm k).mem_iff.1 hc) 82 zeroBoard 0
    sampleSolution 81 solve_sample

/-! ## The hole-clearing loop -/

theorem countFilled_add_count_zero (b : Board) : countFilled b + b.count 0 = b.length := by
  induction b with
  | nil => rfl
  | cons x xs ih =>
    simp only [countFilled, List.countP_cons, List.count_cons, List.length_cons] at *
    by_cases hx : x = 0
    · subst hx
      simp
      omega
    · simp [hx]
      omega

theorem count_zero_clear (p : Board) (idx : Nat) (hl : idx < p.length)
    (h : p[idx]? ≠ some 0) : (p.set idx 0).count 0 = p.count 0 + 1 := by
  have hv : p[idx] ≠ 0 := by
    intro e
    apply h
    rw [List.getElem?_eq_getElem hl, e]
  rw [List.count_set 0 0 p idx hl]
  simp [hv]

/-- What the loop has done when it exits: it only wrote `0`, the exit test
`attempts < holes` is false, and every counted draw zeroed one more cell. -/
theorem clearHoles_inv (draw : Nat → Fin 81) (holes : JSValue) (fuel : Nat) (p : Board)
    (a d : Nat) (q : Board) (a' : Nat)
    (h : clearHoles draw holes fuel p a d = some (q, a')) :
    q.length = p.length ∧ (∀ i : Nat, q[i]? = p[i]? ∨ q[i]? = some 0) ∧
    attemptsLt a' holes = false ∧ a ≤ a' ∧
    (p.length = 81 → q.count 0 + a = p.count 0 + a') ∧
    (∀ n, holes = JSValue.number n → a ≤ n → a' = n) := by
  induction fuel generalizing p a d with
  | zero => simp [clearHoles] at h
  | succ fuel ih =>
    rw [clearHoles] at h
    split at h
    · next hlt =>
      simp only at h
      split at h
      · next hne =>
        obtain ⟨h1, h2, h3, h4, h5, h6⟩ := ih _ _ _ h
        refine ⟨by rw [h1, List.length_set], fun i => ?_, h3, by omega, fun hl => ?_,
          fun n hn han => ?_⟩
        · rcases h2 i with e | e
          · rw [e, List.getElem?_set]
            by_cases hi : (draw d).val = i
            · rw [if_pos hi]
              by_cases hl : (draw d).val < p.length
              · rw [if_pos hl]
                exact Or.inr rfl
              · rw [if_neg hl]
                left
                rw [← hi, List.getElem?_eq_none (by omega)]
            · rw [if_neg hi]
              exact Or.inl rfl
          · exact Or.inr e
        · have hc := count_zero_clear p (draw d).val (by rw [hl]; exact (draw d).isLt) hne
          have := h5 (by rw [List.length_set]; exact hl)
          omega
        · subst hn
          simp only [attemptsLt, decide_eq_true_eq] at hlt
          exact h6 n rfl (by omega)
      · obtain ⟨h1, h2, h3, h4, h5, h6⟩ := ih _ _ _ h
        exact ⟨h1, h2, h3, h4, h5, h6⟩
    · next hlt =>
      simp only [Option.some.injEq, Prod.mk.injEq] at h
      obtain ⟨e1, e2⟩ := h
      subst e1 e2
      refine ⟨rfl, fun i => Or.inl rfl, by simpa using hlt, Nat.le_refl _, fun _ => rfl,
        fun n hn han => ?_⟩
      subst hn
      simp only [attemptsLt, decide_eq_true_eq] at hlt
      omega

/-- The loop exits once the draws still to come hit enough cells that are
not yet zero. -/
theorem clearHoles_exits_aux (draw : Nat → Fin 81) (holes : Nat) (n : Nat) (p : Board)
    (a d fuel : Nat) (ha : a ≤ holes)
    (hn : holes ≤ a + (((Finset.range n).image (fun j => draw (d + j))).filter
      (fun x : Fin 81 => p[x.val]? ≠ some 0)).card)
    (hfuel : n < fuel) :
    ∃ q, clearHoles draw (JSValue.number holes) fuel p a d = some (q, holes) := by
  induction n generalizing p a d fuel with
  | zero =>
    obtain ⟨f, rfl⟩ := Nat.exists_eq_succ_of_ne_zero (Nat.ne_of_gt hfuel)
    simp only [Finset.range_zero, Finset.image_empty, Finset.filter_empty, Finset.card_empty,
      Nat.add_zero] at hn
    have hah : a = holes := Nat.le_antisymm ha hn
    subst hah
    rw [clearHoles]
    simp [attemptsLt]
  | succ m ih =>
    obtain ⟨f, rfl⟩ := Nat.exists_eq_succ_of_ne_zero (Nat.ne_of_gt (Nat.lt_of_le_of_lt (Nat.zero_le _) hfuel))
    rw [clearHoles]
    by_cases hlt : a < holes
    · have hlt' : attemptsLt a (JSValue.number holes) = true := by simp [attemptsLt, hlt]
      rw [if_pos hlt']
      simp only
      by_cases hne : p[(draw d).val]? ≠ some 0
      · rw [if_pos hne]
        apply ih _ _ _ _ (by omega) _ (by omega)
        have hsub : (((Finset.range (m + 1)).image (fun j => draw (d + j))).filter
            (fun x : Fin 81 => p[x.val]? ≠ some 0)) ⊆
            insert (draw d) ((((Finset.range m).image (fun j => draw (d + 1 + j))).filter
              (fun x : Fin 81 => (p.set (draw d).val 0)[x.val]? ≠ some 0))) := by
          intro x hx
          simp only [Finset.mem_filter, Finset.mem_image, Finset.mem_range] at hx
          obtain ⟨⟨j, hj, rfl⟩, hx2⟩ := hx
          by_cases hxd : draw (d + j) = draw d
          · rw [hxd]
            exact Finset.mem_insert_self _ _
          · apply Finset.mem_insert_of_mem
            simp only [Finset.mem_filter, Finset.mem_image, Finset.mem_range]
            have hj0 : j ≠ 0 := by
              intro e
              subst e
              exact hxd rfl
            obtain ⟨j', rfl⟩ := Nat.exists_eq_succ_of_ne_zero hj0
            refine ⟨⟨j', by omega, by rw [show d + 1 + j' = d + (j' + 1) by omega]⟩, ?_⟩
            rw [List.getElem?_set, if_neg (fun e => hxd (Fin.ext e.symm))]
            exact hx2
        have hcard := (Finset.card_le_card hsub).trans (Finset.card_insert_le _ _)
        omega
      · rw [if_neg hne]
        apply ih _ _ _ _ ha _ (by omega)
        have hsub : (((Finset.range (m + 1)).image (fun j => draw (d + j))).filter
            (fun x : Fin 81 => p[x.val]? ≠ some 0)) ⊆
            ((((Finset.range m).image (fun j => draw (d + 1 + j))).filter
              (fun x : Fin 81 => p[x.val]? ≠ some 0))) := by
          intro x hx
          simp only [Finset.mem_filter, Finset.mem_image, Finset.mem_range] at hx ⊢
          obtain ⟨⟨j, hj, rfl⟩, hx2⟩ := hx
          have hj0 : j ≠ 0 := by
            intro e
            subst e
            exact hne hx2
          obtain ⟨j', rfl⟩ := Nat.exists_eq_succ_of_ne_zero hj0
          exact ⟨⟨j', by omega, by rw [show d + 1 + j' = d + (j' + 1) by omega]⟩, hx2⟩
        have hcard := Finset.card_le_card hsub
        omega
    · have hah : a = holes := by omega
      subst hah
      simp [attemptsLt]

/-- Every counted draw hit a cell that was not yet zero, so the counter
grows by no more than the number of such cells among the draws made. -/
theorem clearHoles_counted_le (draw : Nat → Fin 81) (holes : JSValue) (fuel : Nat) (p : Board)
    (a d : Nat) (q : Board) (a' : Nat) (hlen : p.length = 81)
    (h : clearHoles draw holes fuel p a d = some (q, a')) :
    a' ≤ a + (((Finset.range fuel).image (fun j => draw (d + j))).filter
      (fun x : Fin 81 => p[x.val]? ≠ some 0)).card := by
  induction fuel generalizing p a d with
  | zero => simp [clearHoles] at h
  | succ f ih =>
    rw [clearHoles] at h
    split at h
    · simp only at h
      split at h
      · next hne =>
        have hl : (draw d).val < p.length := by rw [hlen]; exact (draw d).isLt
        have h1 := ih _ _ _ (by rw [List.length_set]; exact hlen) h
        have hsub : insert (draw d) ((((Finset.range f).image (fun j => draw (d + 1 + j))).filter
              (fun x : Fin 81 => (p.set (draw d).val 0)[x.val]? ≠ some 0))) ⊆
            (((Finset.range (f + 1)).image (fun j => draw (d + j))).filter
              (fun x : Fin 81 => p[x.val]? ≠ some 0)) := by
          intro x hx
          rcases Finset.mem_insert.1 hx with e | hx
          · subst e
            simp only [Finset.mem_filter, Finset.mem_image, Finset.mem_range]
            exact ⟨⟨0, by omega, rfl⟩, hne⟩
          · simp only [Finset.mem_filter, Finset.mem_image, Finset.mem_range] at hx ⊢
            obtain ⟨⟨j, hj, rfl⟩, hx2⟩ := hx
            refine ⟨⟨j + 1, by omega, by rw [show d + (j + 1) = d + 1 + j by omega]⟩, ?_⟩
            rw [List.getElem?_set] at hx2
            by_cases hd : (draw d).val = (draw (d + 1 + j)).val
            · rw [if_pos hd, if_pos hl] at hx2
              exact absurd rfl hx2
            · rw [if_neg hd] at hx2
              exact hx2
        have hnot : draw d ∉ ((((Finset.range f).image (fun j => draw (d + 1 + j))).filter
              (fun x : Fin 81 => (p.set (draw d).val 0)[x.val]? ≠ some 0))) := by
          intro hx
          simp only [Finset.mem_filter] at hx
          apply hx.2
          rw [List.getElem?_set, if_pos rfl, if_pos hl]
        have hcard := Finset.card_le_card hsub
        rw [Finset.card_insert_of_not_mem hnot] at hcard
        omega
      · next hne =>
        have h1 := ih _ _ _ hlen h
        have hsub : ((((Finset.range f).image (fun j => draw (d + 1 + j))).filter
              (fun x : Fin 81 => p[x.val]? ≠ some 0))) ⊆
            (((Finset.range (f + 1)).image (fun j => draw (d + j))).filter
              (fun x : Fin 81 => p[x.val]? ≠ some 0)) := by
          intro x hx
          simp only [Finset.mem_filter, Finset.mem_image, Finset.mem_range] at hx ⊢
          obtain ⟨⟨j, hj, rfl⟩, hx2⟩ := hx
          exact ⟨⟨j + 1, by omega, by rw [show d + (j + 1) = d + 1 + j by omega]⟩, hx2⟩
        have hcard := Finset.card_le_card hsub
        omega
    · simp only [Option.some.injEq, Prod.mk.injEq] at h
      omega

/-- Once cell 0 is zero and fewer than 35 draws have counted, draws that are
all `0` never let the loop exit. -/
theorem clearHoles_zeroDraw_stuck (fuel : Nat) (p : Board) (d : Nat) (hp : p[0]? = some 0) :
    clearHoles zeroDraw (JSValue.number 35) fuel p 1 d = none := by
  induction fuel generalizing d with
  | zero => rfl
  | succ fuel ih =>
    rw [clearHoles]
    have h0 : (zeroDraw d).val = 0 := rfl
    simp only [attemptsLt, h0, hp]
    simpa using ih (d + 1)

theorem generatePuzzle_eq (ord : Nat → List Int) (draw : Nat → Fin 81) (fuel : Nat)
    (level : String) (r : Bool) (s : Board) (k : Nat) (p : Board) (a : Nat)
    (h1 : solve ord fuel zeroBoard 0 = some (r, s, k))
    (h2 : clearHoles draw (holesFor level) fuel s 0 0 = some (p, a)) :
    generatePuzzle ord draw fuel level = some (p, s) := by
  unfold generatePuzzle
  rw [h1]
  simp only
  rw [h2]

theorem generatePuzzle_some (ord : Nat → List Int) (draw : Nat → Fin 81) (fuel : Nat)
    (level : String) (p s : Board) (h : generatePuzzle ord draw fuel level = some (p, s)) :
    ∃ r k a, solve ord fuel zeroBoard 0 = some (r, s, k) ∧
      clearHoles draw (holesFor level) fuel s 0 0 = some (p, a) := by
  unfold generatePuzzle at h
  split at h
  · cases h
  · next r s' k e1 =>
    split at h
    · cases h
    · next p' a e2 =>
      simp only [Option.some.injEq, Prod.mk.injEq] at h
      obtain ⟨hp, hs⟩ := h
      subst hp hs
      exact ⟨r, k, a, e1, e2⟩

/-- A filling of the all-zero board has 81 cells, none of them `0`. -/
theorem fills_zeroBoard_full (F : Board) (h : Fills zeroBoard F) :
    F.length = 81 ∧ (∀ i, i < 81 → F[i]? ≠ some 0) ∧ F.count 0 = 0 := by
  have hlen : F.length = 81 := by rw [h.1]; rfl
  have hne : ∀ i, i < 81 → F[i]? ≠ some 0 := by
    intro i hi e
    obtain ⟨v, hv1, hv2, _⟩ := (h.2 i hi).2 (zeroBoard_getElem? i hi)
    rw [e] at hv1
    exact zero_not_mem_digits ((Option.some.inj hv1) ▸ hv2)
  refine ⟨hlen, hne, ?_⟩
  rw [List.count_eq_zero]
  intro hmem
  obtain ⟨i, hi⟩ := List.mem_iff_getElem?.1 hmem
  exact hne i (by rw [← hlen]; exact lt_length_of_getElem? hi) hi

/-- Whenever `solve` returns on the all-zero board it has returned `true`
and filled it. -/
theorem solve_zeroBoard_fills (ord : Nat → List Int) (hord : ∀ k, (ord k).Perm digits)
    (fuel k : Nat) (r : Bool) (F : Board) (k' : Nat)
    (h : solve ord fuel zeroBoard k = some (r, F, k')) : r = true ∧ Fills zeroBoard F := by
  cases r with
  | true =>
    exact ⟨rfl, solve_true_fills ord (fun k _ hc => (hord k).mem_iff.1 hc) fuel zeroBoard k F k' h⟩
  | false =>
    exact absurd ⟨sampleSolution, fills_zeroBoard_sample⟩
      (solve_false_not_fills ord (fun k _ hc => (hord k).mem_iff.2 hc) fuel zeroBoard k F k' h)

theorem clearHoles_sample_easy :
    clearHoles sampleDraw (holesFor "easy") 82 sampleSolution 0 0 = some (samplePuzzle, 35) := by
  decide!

theorem generatePuzzle_sample_easy :
    generatePuzzle sampleOrd sampleDraw 82 "easy" = some (samplePuzzle, sampleSolution) :=
  generatePuzzle_eq sampleOrd sampleDraw 82 "easy" true sampleSolution 81 samplePuzzle 35
    solve_sample clearHoles_sample_easy

/-! ## Recursive calls of `solve` -/

/-- The candidate loop calls `recur` only on boards obtained from `b` by a
placement that passes `isValid`: two functions that agree on those boards give
the same loop, provided a failed call leaves the board as it received it. -/
theorem tryNums_congr (recur recur' : Board → Nat → Option SolveResult)
    (hrec : ∀ b k F k', recur b k = some (false, F, k') → F = b)
    (i : Nat) (b : Board) (hb : b[i]? = some 0)
    (hagree : ∀ c k, isValid b i c = true → recur' (b.set i c) k = recur (b.set i c) k)
    (l : List Int) (k : Nat) : tryNums recur' i l b k = tryNums recur i l b k := by
  induction l generalizing k with
  | nil => rfl
  | cons c rest ih =>
    rw [tryNums, tryNums]
    split
    · next hv =>
      rw [hagree c k hv]
      cases e : recur (b.set i c) k with
      | none => rfl
      | some res =>
        obtain ⟨r, F1, k1⟩ := res
        cases r with
        | true => rfl
        | false =>
          have hF1 := hrec _ _ _ _ e
          subst hF1
          simp only
          rw [set_restore b i c hb]
          exact ih k1
    · exact ih k

/-- The board `solve` leaves has as many cells as the board it was given. -/
theorem solve_length (ord : Nat → List Int) (fuel : Nat) (b : Board) (k : Nat) (r : Bool)
    (F : Board) (k' : Nat) (h : solve ord fuel b k = some (r, F, k')) :
    F.length = b.length := by
  induction fuel generalizing b k r F k' with
  | zero => simp [solve] at h
  | succ fuel ih =>
    rw [solve] at h
    split at h
    · simp only [Option.some.injEq, Prod.mk.injEq] at h
      rw [← h.2.1]
    · next i e =>
      obtain ⟨_, hb, _⟩ := firstEmpty_some b i e
      obtain ⟨h1, h2⟩ := tryNums_spec (solve ord fuel) (solve_false_board ord fuel) i b hb
        (ord k) (k + 1) r F k' h
      cases r with
      | false => rw [(h1 rfl).1]
      | true =>
        obtain ⟨c, _, _, k1, k2, hrec⟩ := h2 rfl
        rw [ih _ _ _ _ _ hrec, List.length_set]

/-! ## The session invariant -/

theorem gridOk_set (solution initialGrid g : Board) (sel : Nat) (v : Int)
    (hinit : initialGrid.length = 81) (hg : GridOk solution initialGrid g)
    (hsel : initialGrid[sel]? = some 0) (hv : v = 0 ∨ solution[sel]? = some v) :
    GridOk solution initialGrid (g.set sel v) := by
  have hlt : sel < g.length := by
    rw [hg.1, ← hinit]
    exact lt_length_of_getElem? hsel
  refine ⟨by rw [List.length_set, hg.1], fun i hi => ?_⟩
  rw [List.getElem?_set]
  by_cases hsi : sel = i
  · subst hsi
    rw [if_pos rfl, if_pos hlt]
    refine ⟨?_, fun hne => absurd hsel hne⟩
    rcases hv with e | e
    · exact Or.inl (by rw [e])
    · exact Or.inr e.symm
  · rw [if_neg hsi]
    exact hg.2 i hi

theorem sessionInv_selectCell (s : GameState) (idx : Nat) (h : SessionInv s) :
    SessionInv (selectCell s idx) := h

theorem sessionInv_handleInput (s : GameState) (num : Int) (h : SessionInv s) :
    SessionInv (handleInput s num) := by
  obtain ⟨h1, h2, h3, h4⟩ := h
  unfold handleInput
  split
  · exact ⟨h1, h2, h3, h4⟩
  · next sel _ =>
    split
    · exact ⟨h1, h2, h3, h4⟩
    · next hinit =>
      have hsel : s.initialGrid[sel]? = some 0 := not_not.1 hinit
      have hhist : ∀ snapshot, snapshot ∈ s.grid :: s.history →
          GridOk s.solution s.initialGrid snapshot := by
        intro snapshot hmem
        rcases List.mem_cons.1 hmem with e | e
        · rw [e]
          exact h3
        · exact h4 snapshot e
      split
      · next hsol =>
        exact ⟨h1, h2, gridOk_set _ _ _ sel num h2 h3 hsel (Or.inr hsol), hhist⟩
      · exact ⟨h1, h2, h3, hhist⟩

theorem sessionInv_undo (s : GameState) (h : SessionInv s) : SessionInv (undo s) := by
  obtain ⟨h1, h2, h3, h4⟩ := h
  unfold undo
  split
  · exact ⟨h1, h2, h3, h4⟩
  · next snapshot rest e =>
    rw [e] at h4
    exact ⟨h1, h2, h4 snapshot (List.mem_cons_self _ _),
      fun x hx => h4 x (List.mem_cons_of_mem _ hx)⟩

theorem sessionInv_erase (s : GameState) (h : SessionInv s) : SessionInv (erase s) := by
  obtain ⟨h1, h2, h3, h4⟩ := h
  unfold erase
  split
  · exact ⟨h1, h2, h3, h4⟩
  · next sel _ =>
    split
    · next hsel =>
      refine ⟨h1, h2, gridOk_set _ _ _ sel 0 h2 h3 hsel (Or.inl rfl), ?_⟩
      intro snapshot hmem
      rcases List.mem_cons.1 hmem with e | e
      · rw [e]
        exact h3
      · exact h4 snapshot e
    · exact ⟨h1, h2, h3, h4⟩

theorem sessionInv_useHint (s : GameState) (h : SessionInv s) : SessionInv (useHint s) := by
  unfold useHint
  split
  · exact h
  · split
    · split
      · exact h
      · next correctVal _ => exact sessionInv_handleInput s correctVal h
    · exact h

theorem sessionInv_step (s : GameState) (a : Action) (h : SessionInv s) :
    SessionInv (step s a) := by
  cases a with
  | selectCell idx => exact sessionInv_selectCell s idx h
  | handleInput num => exact sessionInv_handleInput s num h
  | erase => exact sessionInv_erase s h
  | undo => exact sessionInv_undo s h
  | useHint => exact sessionInv_useHint s h

theorem sessionInv_run (s : GameState) (actions : List Action) (h : SessionInv s) :
    SessionInv (run s actions) := by
  induction actions generalizing s with
  | nil => exact h
  | cons a rest ih => exact ih (step s a) (sessionInv_step s a h)

/-- No action writes `solution` or `initialGrid`. -/
theorem step_fixed (s : GameState) (a : Action) :
    (step s a).solution = s.solution ∧ (step s a).initialGrid = s.initialGrid := by
  cases a with
  | selectCell idx => exact ⟨rfl, rfl⟩
  | handleInput num =>
    simp only [step, handleInput]
    split
    · exact ⟨rfl, rfl⟩
    · split
      · exact ⟨rfl, rfl⟩
      · split <;> exact ⟨rfl, rfl⟩
  | erase =>
    simp only [step, erase]
    split
    · exact ⟨rfl, rfl⟩
    · split <;> exact ⟨rfl, rfl⟩
  | undo =>
    simp only [step, undo]
    split <;> exact ⟨rfl, rfl⟩
  | useHint =>
    simp only [step, useHint, handleInput]
    split
    · exact ⟨rfl, rfl⟩
    · split
      · split
        · exact ⟨rfl, rfl⟩
        · split
          · exact ⟨rfl, rfl⟩
          · split
            · exact ⟨rfl, rfl⟩
            · split <;> exact ⟨rfl, rfl⟩
      · exact ⟨rfl, rfl⟩

theorem run_fixed (s : GameState) (actions : List Action) :
    (run s actions).solution = s.solution ∧ (run s actions).initialGrid = s.initialGrid := by
  induction actions generalizing s with
  | nil => exact ⟨rfl, rfl⟩
  | cons a rest ih =>
    obtain ⟨h1, h2⟩ := ih (step s a)
    obtain ⟨h3, h4⟩ := step_fixed s a
    exact ⟨h1.trans h3, h2.trans h4⟩

/-- The session that `startNewGame()` sets up satisfies the invariant. -/
theorem sessionInv_start (ord : Nat → List Int) (draw : Nat → Fin 81) (fuel : Nat)
    (difficulty : String) (s0 : GameState)
    (h0 : startNewGame ord draw fuel difficulty = some s0) :
    SessionInv s0 ∧ s0.grid = s0.initialGrid ∧ s0.history = [] ∧ s0.mistakes = 0 ∧
      generatePuzzle ord draw fuel difficulty = some (s0.grid, s0.solution) := by
  unfold startNewGame at h0
  split at h0
  · cases h0
  · next puzzle solution e =>
    simp only [Option.some.injEq] at h0
    subst h0
    obtain ⟨r, k, a, e1, e2⟩ := generatePuzzle_some ord draw fuel difficulty puzzle solution e
    have hsol : solution.length = 81 := by
      rw [solve_length ord fuel zeroBoard 0 r solution k e1]
      rfl
    obtain ⟨hp1, hp2, _⟩ := clearHoles_inv draw _ fuel solution 0 0 puzzle a e2
    have hplen : puzzle.length = 81 := by rw [hp1, hsol]
    refine ⟨⟨hsol, hplen, ⟨hplen, fun i _ => ⟨?_, fun _ => rfl⟩⟩, ?_⟩, rfl, rfl, rfl, e⟩
    · rcases hp2 i with e3 | e3
      · exact Or.inr e3
      · exact Or.inl e3
    · intro snapshot hmem
      cases hmem

theorem startNewGame_eq (ord : Nat → List Int) (draw : Nat → Fin 81) (fuel : Nat)
    (difficulty : String) (puzzle solution : Board)
    (h : generatePuzzle ord draw fuel difficulty = some (puzzle, solution)) :
    startNewGame ord draw fuel difficulty =
      some ⟨puzzle, solution, puzzle, [], none, 0, 3, difficulty⟩ := by
  unfold startNewGame
  rw [h]

theorem startNewGame_sample :
    startNewGame sampleOrd sampleDraw 82 "easy" = some sampleStart :=
  startNewGame_eq sampleOrd sampleDraw 82 "easy" samplePuzzle sampleSolution
    generatePuzzle_sample_easy

/-! ## Claims -/

/-- C1: whatever the shuffled candidate orders are, when `solve` returns
`true` on the all-zero board, the board it leaves has 81 cells, each holding a
digit `1..9`, and every row, column and box contains each digit exactly
once. -/
theorem solve_zeroBoard_valid (ord : Nat → List Int) (hord : ∀ k, (ord k).Perm digits)
    (fuel k : Nat) (F : Board) (k' : Nat)
    (h : solve ord fuel zeroBoard k = some (true, F, k')) :
    F.length = 81 ∧
    (∀ i, i < 81 → ∃ v, F[i]? = some v ∧ 1 ≤ v ∧ v ≤ 9) ∧
    ∀ u, u < 9 → ∀ d : Int, 1 ≤ d → d ≤ 9 →
      (valuesAt F (rowCells u)).count (some d) = 1 ∧
      (valuesAt F (colCells u)).count (some d) = 1 ∧
      (valuesAt F (boxCells u)).count (some d) = 1 := by
  have hfill := solve_true_fills ord (fun k _ hc => (hord k).mem_iff.1 hc) fuel zeroBoard k F k' h
  have hF : ∀ i, i < 81 → ∃ v, F[i]? = some v ∧ v ∈ digits ∧
      ∀ j, j < 81 → j ≠ i → isRelated i j = true → F[j]? ≠ some v :=
    fun i hi => (hfill.2 i hi).2 (zeroBoard_getElem? i hi)
  refine ⟨by rw [hfill.1]; rfl, fun i hi => ?_, fun u hu d hd1 hd9 => ?_⟩
  · obtain ⟨v, hv, hvd, _⟩ := hF i hi
    exact ⟨v, hv, (mem_digits_iff v).1 hvd⟩
  · have hd : d ∈ digits := (mem_digits_iff d).2 ⟨hd1, hd9⟩
    obtain ⟨r1, r2, r3, r4⟩ := rowCells_facts u hu
    obtain ⟨c1, c2, c3, c4⟩ := colCells_facts u hu
    obtain ⟨b1, b2, b3, b4⟩ := boxCells_facts u hu
    exact ⟨count_unit F _ r1 r2 r3 r4 hF d hd, count_unit F _ c1 c2 c3 c4 hF d hd,
      count_unit F _ b1 b2 b3 b4 hF d hd⟩

/-- C1, at a concrete run: the orders `sampleOrd` lead to `sampleSolution`. -/
theorem solve_zeroBoard_valid_witness :
    (∀ k, (sampleOrd k).Perm digits) ∧
    solve sampleOrd 82 zeroBoard 0 = some (true, sampleSolution, 81) ∧
    (sampleSolution.length = 81 ∧
    (∀ i, i < 81 → ∃ v, sampleSolution[i]? = some v ∧ 1 ≤ v ∧ v ≤ 9) ∧
    ∀ u, u < 9 → ∀ d : Int, 1 ≤ d → d ≤ 9 →
      (valuesAt sampleSolution (rowCells u)).count (some d) = 1 ∧
      (valuesAt sampleSolution (colCells u)).count (some d) = 1 ∧
      (valuesAt sampleSolution (boxCells u)).count (some d) = 1) :=
  ⟨sampleOrd_perm, solve_sample,
    solve_zeroBoard_valid sampleOrd sampleOrd_perm 82 0 sampleSolution 81 solve_sample⟩

/-- C2: whatever the shuffled candidate orders are (each a permutation of
`1..9`), `solve` on the all-zero board returns, and returns `true`, as soon as
it is given fuel for 82 nested calls; and the board it leaves is completed: it
has 81 cells, none of them `0`, each holding a digit `1..9` found in no other
cell of its row, column or box. -/
theorem solve_zeroBoard_true (ord : Nat → List Int) (hord : ∀ k, (ord k).Perm digits)
    (fuel : Nat) (hfuel : 82 ≤ fuel) (k : Nat) :
    ∃ F k', solve ord fuel zeroBoard k = some (true, F, k') ∧ Fills zeroBoard F ∧
      F.length = 81 ∧ (∀ i, i < 81 → F[i]? ≠ some 0) := by
  have hcount : zeroBoard.count 0 < fuel := by
    have : zeroBoard.count 0 = 81 := by decide
    omega
  obtain ⟨⟨r, F, k'⟩, e⟩ := solve_total ord fuel zeroBoard k hcount
  obtain ⟨hr, hfill⟩ := solve_zeroBoard_fills ord hord fuel k r F k' e
  subst hr
  obtain ⟨hlen, hne, _⟩ := fills_zeroBoard_full F hfill
  exact ⟨F, k', e, hfill, hlen, hne⟩

/-- C2, at the identity candidate order. -/
theorem solve_zeroBoard_true_witness :
    (∀ k, (idOrd k).Perm digits) ∧ 82 ≤ 82 ∧
    ∃ F k', solve idOrd 82 zeroBoard 0 = some (true, F, k') ∧ Fills zeroBoard F ∧
      F.length = 81 ∧ (∀ i, i < 81 → F[i]? ≠ some 0) :=
  ⟨idOrd_perm, Nat.le_refl 82, solve_zeroBoard_true idOrd idOrd_perm 82 (Nat.le_refl 82) 0⟩

/-- C3: for an index in `0..80`, `isValid` returns `true` exactly when the
candidate equals none of the cells of the row `⌊index/9⌋`, none of the cells
of the column `index mod 9` and none of the cells of the box
`⌊row/3⌋*3 + ⌊col/3⌋` (the cell at `index` is one of them); and the box
expression of the loop, for `i = 0..8`, enumerates without repetition exactly
the cells with the box number of `index`. -/
theorem isValid_spec (board : Board) (index : Nat) (num : Int) (hi : index < 81) :
    (isValid board index num = true ↔
      (∀ j, j < 81 → rowOf j = rowOf index → board[j]? ≠ some num) ∧
      (∀ j, j < 81 → colOf j = colOf index → board[j]? ≠ some num) ∧
      (∀ j, j < 81 → boxOf j = boxOf index → board[j]? ≠ some num)) ∧
    (∀ j, (j < 81 ∧ boxOf j = boxOf index) ↔
      ∃ t, t < 9 ∧ boxCell (index / 9 / 3 * 3) (index % 9 / 3 * 3) t = j) ∧
    (∀ t t', t < 9 → t' < 9 →
      boxCell (index / 9 / 3 * 3) (index % 9 / 3 * 3) t =
        boxCell (index / 9 / 3 * 3) (index % 9 / 3 * 3) t' → t = t') := by
  refine ⟨?_, ?_, ?_⟩
  · rw [isValid_iff board index num hi]
    constructor
    · intro h
      exact ⟨fun j hj hr => h j hj ((isRelated_iff index j).2 (Or.inl hr)),
        fun j hj hr => h j hj ((isRelated_iff index j).2 (Or.inr (Or.inl hr))),
        fun j hj hr => h j hj ((isRelated_iff index j).2 (Or.inr (Or.inr hr)))⟩
    · rintro ⟨h1, h2, h3⟩ j hj hr
      rcases (isRelated_iff index j).1 hr with e | e | e
      · exact h1 j hj e
      · exact h2 j hj e
      · exact h3 j hj e
  · intro j
    constructor
    · rintro ⟨hj, hb⟩
      exact ⟨j / 9 % 3 * 3 + j % 9 % 3, by omega, boxCell_surj index j hb⟩
    · rintro ⟨t, ht, rfl⟩
      exact boxCell_mem index t hi ht
  · intro t t' ht ht' e
    simp only [boxCell] at e
    omega

/-- C3, at cell 40 (row 4, column 4, box 4) of the all-zero board and
candidate 5. -/
theorem isValid_spec_witness :
    (40 : Nat) < 81 ∧
    ((isValid zeroBoard 40 5 = true ↔
      (∀ j, j < 81 → rowOf j = rowOf 40 → zeroBoard[j]? ≠ some 5) ∧
      (∀ j, j < 81 → colOf j = colOf 40 → zeroBoard[j]? ≠ some 5) ∧
      (∀ j, j < 81 → boxOf j = boxOf 40 → zeroBoard[j]? ≠ some 5)) ∧
    (∀ j, (j < 81 ∧ boxOf j = boxOf 40) ↔
      ∃ t, t < 9 ∧ boxCell (40 / 9 / 3 * 3) (40 % 9 / 3 * 3) t = j) ∧
    (∀ t t', t < 9 → t' < 9 →
      boxCell (40 / 9 / 3 * 3) (40 % 9 / 3 * 3) t =
        boxCell (40 / 9 / 3 * 3) (40 % 9 / 3 * 3) t' → t = t')) :=
  ⟨by decide, isValid_spec zeroBoard 40 5 (by decide)⟩

/-- C4, refuted as stated: on the board whose only filled cell is cell 0,
holding 5, the digit 5 occurs in no cell other than cell 0, yet
`isValid(board, 0, 5)` is `false`; on the all-zero board, which differs from
it at cell 0 only, `isValid(board, 0, 5)` is `true`. -/
theorem isValid_depends_on_own_cell :
    (∀ j, j < 81 → j ≠ 0 → (zeroBoard.set 0 5)[j]? ≠ some 5) ∧
    isValid (zeroBoard.set 0 5) 0 5 = false ∧
    (∀ j, j ≠ 0 → (zeroBoard.set 0 5)[j]? = zeroBoard[j]?) ∧
    isValid zeroBoard 0 5 = true := by
  refine ⟨?_, by decide, ?_, by decide⟩
  · intro j hj hne
    rw [getElem?_set_cell zeroBoard 0 j 5 (zeroBoard_getElem? 0 (by decide)), if_neg hne,
      zeroBoard_getElem? j hj]
    decide
  · intro j hne
    rw [getElem?_set_cell zeroBoard 0 j 5 (zeroBoard_getElem? 0 (by decide)), if_neg hne]

/-- C4, amended: `isValid(board, i, v)` is `false` exactly when `v` occurs in
some cell of the row, column or box of `i`, the cell `i` included.  So when
cell `i` does not hold `v`, it is `true` exactly when `v` occurs in no other
cell of the row, column or box of `i`, and a board that differs at cell `i`
only, and does not hold `v` there either, gives the same result. -/
theorem isValid_other_cells (board : Board) (i : Nat) (v : Int) (hi : i < 81) :
    (isValid board i v = false ↔
      ∃ j, j < 81 ∧ isRelated i j = true ∧ board[j]? = some v) ∧
    (board[i]? ≠ some v →
      (isValid board i v = true ↔
        ∀ j, j < 81 → j ≠ i → isRelated i j = true → board[j]? ≠ some v) ∧
      (∀ board' : Board, (∀ j, j ≠ i → board'[j]? = board[j]?) → board'[i]? ≠ some v →
        isValid board' i v = isValid board i v)) := by
  have key : ∀ b : Board, b[i]? ≠ some v →
      (isValid b i v = true ↔
        ∀ j, j < 81 → j ≠ i → isRelated i j = true → b[j]? ≠ some v) := by
    intro b hb
    rw [isValid_iff b i v hi]
    constructor
    · intro h j hj _ hr
      exact h j hj hr
    · intro h j hj hr
      by_cases hji : j = i
      · rw [hji]
        exact hb
      · exact h j hj hji hr
  refine ⟨?_, fun hv => ⟨key board hv, ?_⟩⟩
  · rw [← Bool.not_eq_true, isValid_iff board i v hi]
    push_neg
    rfl
  · intro board' hsame hv'
    rw [Bool.eq_iff_iff, key board' hv', key board hv]
    constructor
    · intro h j hj hji hr
      rw [← hsame j hji]
      exact h j hj hji hr
    · intro h j hj hji hr
      rw [hsame j hji]
      exact h j hj hji hr

/-- C4 amended, at the empty cell 0 of the all-zero board and digit 5. -/
theorem isValid_other_cells_witness :
    (0 : Nat) < 81 ∧
    ((isValid zeroBoard 0 5 = false ↔
      ∃ j, j < 81 ∧ isRelated 0 j = true ∧ zeroBoard[j]? = some 5) ∧
    (zeroBoard[0]? ≠ some 5 →
      (isValid zeroBoard 0 5 = true ↔
        ∀ j, j < 81 → j ≠ 0 → isRelated 0 j = true → zeroBoard[j]? ≠ some 5) ∧
      (∀ board' : Board, (∀ j, j ≠ 0 → board'[j]? = zeroBoard[j]?) → board'[0]? ≠ some 5 →
        isValid board' 0 5 = isValid zeroBoard 0 5))) :=
  ⟨by decide, isValid_other_cells zeroBoard 0 5 (by decide)⟩

/-- With fuel for 82 nested calls `solve` returns on every 81-cell board:
`true` with a filling of the board when one exists, `false` with the board
unchanged when none exists. -/
theorem solve_result (ord : Nat → List Int) (hord : ∀ k, (ord k).Perm digits) (b : Board)
    (hlen : b.length = 81) (fuel : Nat) (hfuel : 82 ≤ fuel) (k : Nat) :
    ∃ r F k', solve ord fuel b k = some (r, F, k') ∧ (r = true ↔ ∃ G, Fills b G) ∧
      (r = true → Fills b F) ∧ (r = false → F = b) := by
  have hcount : b.count 0 < fuel := by
    have := List.count_le_length (0 : Int) b
    omega
  obtain ⟨⟨r, F, k'⟩, e⟩ := solve_total ord fuel b k hcount
  refine ⟨r, F, k', e, ?_⟩
  cases r with
  | true =>
    have hF := solve_true_fills ord (fun k _ hc => (hord k).mem_iff.1 hc) fuel b k F k' e
    exact ⟨⟨fun _ => ⟨F, hF⟩, fun _ => rfl⟩, fun _ => hF, fun h => (by cases h)⟩
  | false =>
    have hno := solve_false_not_fills ord (fun k _ hc => (hord k).mem_iff.2 hc) fuel b k F k' e
    exact ⟨⟨fun h => (by cases h), fun h => absurd h hno⟩, fun h => (by cases h),
      fun _ => solve_false_board ord fuel b k F k' e⟩

/-- C5: for each of the four difficulties, whenever `generatePuzzle` returns,
the puzzle has 81 cells of which exactly the hole count are `0` and the others,
46, 36, 29 or 23 of them, are not. -/
theorem generatePuzzle_filled_count (ord : Nat → List Int) (hord : ∀ k, (ord k).Perm digits)
    (draw : Nat → Fin 81) (fuel : Nat) (level : String) (holes filled : Nat)
    (hlevel : (level, holes, filled) ∈
      [("easy", 35, 46), ("medium", 45, 36), ("hard", 52, 29), ("expert", 58, 23)])
    (puzzle solution : Board)
    (h : generatePuzzle ord draw fuel level = some (puzzle, solution)) :
    puzzle.length = 81 ∧ puzzle.count 0 = holes ∧ countFilled puzzle = filled ∧
      filled = 81 - holes := by
  obtain ⟨r, k, a, e1, e2⟩ := generatePuzzle_some ord draw fuel level puzzle solution h
  obtain ⟨hlen, _, hzero⟩ :=
    fills_zeroBoard_full solution (solve_zeroBoard_fills ord hord fuel 0 r solution k e1).2
  obtain ⟨h1, _, _, _, h5, h6⟩ := clearHoles_inv draw _ fuel solution 0 0 puzzle a e2
  have hcount := countFilled_add_count_zero puzzle
  have h5 := h5 hlen
  simp only [List.mem_cons, Prod.mk.injEq, List.mem_singleton, List.not_mem_nil, or_false]
    at hlevel
  rcases hlevel with ⟨rfl, rfl, rfl⟩ | ⟨rfl, rfl, rfl⟩ | ⟨rfl, rfl, rfl⟩ | ⟨rfl, rfl, rfl⟩
  · have := h6 35 (by decide) (by omega)
    omega
  · have := h6 45 (by decide) (by omega)
    omega
  · have := h6 52 (by decide) (by omega)
    omega
  · have := h6 58 (by decide) (by omega)
    omega

/-- C5, at a concrete run of `generatePuzzle('easy')`. -/
theorem generatePuzzle_filled_count_witness :
    (∀ k, (sampleOrd k).Perm digits) ∧
    (("easy", 35, 46) : String × Nat × Nat) ∈
      [("easy", 35, 46), ("medium", 45, 36), ("hard", 52, 29), ("expert", 58, 23)] ∧
    generatePuzzle sampleOrd sampleDraw 82 "easy" = some (samplePuzzle, sampleSolution) ∧
    (samplePuzzle.length = 81 ∧ samplePuzzle.count 0 = 35 ∧ countFilled samplePuzzle = 46 ∧
      46 = 81 - 35) :=
  ⟨sampleOrd_perm, List.mem_cons_self _ _, generatePuzzle_sample_easy,
    generatePuzzle_filled_count sampleOrd sampleOrd_perm sampleDraw 82 "easy" 35 46
      (List.mem_cons_self _ _) samplePuzzle sampleSolution generatePuzzle_sample_easy⟩

/-- C6: whatever the difficulty argument, when `generatePuzzle` returns, the
solution is the board `solve` left, every cell of the puzzle is either the
cell of the solution or `0`, and so every puzzle cell in `0..80` that is not
`0` equals the solution cell. -/
theorem generatePuzzle_subset (ord : Nat → List Int) (draw : Nat → Fin 81) (fuel : Nat)
    (level : String) (puzzle solution : Board)
    (h : generatePuzzle ord draw fuel level = some (puzzle, solution)) :
    (∃ r k, solve ord fuel zeroBoard 0 = some (r, solution, k)) ∧
    (∀ i : Nat, puzzle[i]? = solution[i]? ∨ puzzle[i]? = some 0) ∧
    (∀ i : Nat, i < 81 → puzzle[i]? ≠ some 0 → puzzle[i]? = solution[i]?) := by
  obtain ⟨r, k, a, e1, e2⟩ := generatePuzzle_some ord draw fuel level puzzle solution h
  obtain ⟨_, h2, _⟩ := clearHoles_inv draw _ fuel solution 0 0 puzzle a e2
  refine ⟨⟨r, k, e1⟩, h2, fun i _ hne => ?_⟩
  rcases h2 i with e | e
  · exact e
  · exact absurd e hne

/-- C6, at a concrete run of `generatePuzzle('easy')`. -/
theorem generatePuzzle_subset_witness :
    generatePuzzle sampleOrd sampleDraw 82 "easy" = some (samplePuzzle, sampleSolution) ∧
    ((∃ r k, solve sampleOrd 82 zeroBoard 0 = some (r, sampleSolution, k)) ∧
    (∀ i : Nat, samplePuzzle[i]? = sampleSolution[i]? ∨ samplePuzzle[i]? = some 0) ∧
    (∀ i : Nat, i < 81 → samplePuzzle[i]? ≠ some 0 → samplePuzzle[i]? = sampleSolution[i]?)) :=
  ⟨generatePuzzle_sample_easy,
    generatePuzzle_subset sampleOrd sampleDraw 82 "easy" samplePuzzle sampleSolution
      generatePuzzle_sample_easy⟩

/-- C7, at the failing input: `'constructor'` is none of the four difficulty
names, yet `difficultyMap['constructor']` is the inherited function `Object`,
which is truthy, so `holes` is not 35; the loop test is false at once and the
puzzle returned is the full solution, 81 filled cells, where the same random
choices give 46 filled cells for `'easy'`.  A name found nowhere, such as
`'nightmare'`, does get 35. -/
theorem generatePuzzle_constructor_no_holes :
    holesFor "nightmare" = JSValue.number 35 ∧
    holesFor "constructor" = JSValue.object ∧
    generatePuzzle sampleOrd sampleDraw 82 "constructor"
      = some (sampleSolution, sampleSolution) ∧
    countFilled sampleSolution = 81 ∧
    generatePuzzle sampleOrd sampleDraw 82 "easy" = some (samplePuzzle, sampleSolution) ∧
    countFilled samplePuzzle = 46 :=
  ⟨by decide, by decide,
    generatePuzzle_eq sampleOrd sampleDraw 82 "constructor" true sampleSolution 81
      sampleSolution 0 solve_sample (by decide),
    by decide, generatePuzzle_sample_easy, by decide⟩

/-- C8, refuted as stated: the board of 81 ones is contradictory and
completely filled, and `solve` returns `true` on it; the board `dupBoard`
holds 2 twice in row 0 and has one empty cell, and `solve` fills that cell
with 8 and returns `true`. -/
theorem solve_true_on_contradictory :
    Contradictory onesBoard ∧
    solve idOrd 1 onesBoard 0 = some (true, onesBoard, 0) ∧
    Contradictory dupBoard ∧
    solve idOrd 2 dupBoard 0 = some (true, dupBoard.set 80 8, 1) :=
  ⟨⟨0, 1, 1, by decide, by decide, by decide, by decide, by decide, by decide, by decide⟩,
    by decide,
    ⟨0, 1, 2, by decide, by decide, by decide, by decide, by decide, by decide, by decide⟩,
    by decide⟩

/-- C8, amended: `solve` never compares the cells already filled with each
other.  On a contradictory 81-cell board it returns `false` exactly when the
empty cells have no filling by digits `1..9` in which each filled-in digit is
absent from the other cells of its row, column and box; when the board has no
empty cell it returns `true` and leaves the board as it is. -/
theorem solve_contradictory (b : Board) (hlen : b.length = 81) (_hc : Contradictory b)
    (ord : Nat → List Int) (hord : ∀ k, (ord k).Perm digits)
    (fuel : Nat) (hfuel : 82 ≤ fuel) (k : Nat) :
    ∃ r F k', solve ord fuel b k = some (r, F, k') ∧
      (r = false ↔ ¬ ∃ G, Fills b G) ∧
      ((∀ i, i < 81 → b[i]? ≠ some 0) → r = true ∧ F = b ∧ k' = k) := by
  obtain ⟨r, F, k', e, hiff, _, _⟩ := solve_result ord hord b hlen fuel hfuel k
  refine ⟨r, F, k', e, ?_, fun hfull => ?_⟩
  · rw [← hiff]
    cases r <;> simp
  · obtain ⟨f, rfl⟩ : ∃ f, fuel = f + 1 := ⟨fuel - 1, by omega⟩
    rw [solve, firstEmpty_eq_none_of_full b hfull] at e
    simp only [Option.some.injEq, Prod.mk.injEq] at e
    exact ⟨e.1.symm, e.2.1.symm, e.2.2.symm⟩

/-- C8 amended, at the board of 81 ones. -/
theorem solve_contradictory_witness :
    onesBoard.length = 81 ∧ Contradictory onesBoard ∧ (∀ k, (idOrd k).Perm digits) ∧
    82 ≤ 82 ∧
    ∃ r F k', solve idOrd 82 onesBoard 0 = some (r, F, k') ∧
      (r = false ↔ ¬ ∃ G, Fills onesBoard G) ∧
      ((∀ i, i < 81 → onesBoard[i]? ≠ some 0) → r = true ∧ F = onesBoard ∧ k' = 0) :=
  ⟨rfl, ⟨0, 1, 1, by decide, by decide, by decide, by decide, by decide, by decide, by decide⟩,
    idOrd_perm, Nat.le_refl 82,
    solve_contradictory onesBoard rfl
      ⟨0, 1, 1, by decide, by decide, by decide, by decide, by decide, by decide, by decide⟩
      idOrd idOrd_perm 82 (Nat.le_refl 82) 0⟩

/-- C9: on an 81-cell board, two runs of `solve` under any two choices of the
shuffled candidate orders return the same boolean, and it is `true` exactly
when the empty cells can be filled one placement at a time, each placement
passing `isValid`. -/
theorem solve_outcome_independent (b : Board) (hlen : b.length = 81)
    (ord1 ord2 : Nat → List Int) (h1 : ∀ k, (ord1 k).Perm digits)
    (h2 : ∀ k, (ord2 k).Perm digits) (fuel1 fuel2 : Nat) (hf1 : 82 ≤ fuel1)
    (hf2 : 82 ≤ fuel2) (k1 k2 : Nat) :
    ∃ r F1 F2 k1' k2', solve ord1 fuel1 b k1 = some (r, F1, k1') ∧
      solve ord2 fuel2 b k2 = some (r, F2, k2') ∧ (r = true ↔ CanFill b) := by
  obtain ⟨r1, F1, k1', e1, hiff1, _, _⟩ := solve_result ord1 h1 b hlen fuel1 hf1 k1
  obtain ⟨r2, F2, k2', e2, hiff2, _, _⟩ := solve_result ord2 h2 b hlen fuel2 hf2 k2
  have hr : r1 = r2 := by
    rw [Bool.eq_iff_iff, hiff1, hiff2]
  subst hr
  exact ⟨r1, F1, F2, k1', k2', e1, e2, by rw [hiff1, canFill_iff_fills]⟩

/-- C9, at the all-zero board with the orders `sampleOrd` and `idOrd`. -/
theorem solve_outcome_independent_witness :
    zeroBoard.length = 81 ∧ (∀ k, (sampleOrd k).Perm digits) ∧
    (∀ k, (idOrd k).Perm digits) ∧ 82 ≤ 82 ∧ 82 ≤ 90 ∧
    ∃ r F1 F2 k1' k2', solve sampleOrd 82 zeroBoard 0 = some (r, F1, k1') ∧
      solve idOrd 90 zeroBoard 0 = some (r, F2, k2') ∧ (r = true ↔ CanFill zeroBoard) :=
  ⟨rfl, sampleOrd_perm, idOrd_perm, Nat.le_refl 82, by decide,
    solve_outcome_independent zeroBoard rfl sampleOrd idOrd sampleOrd_perm idOrd_perm 82 90
      (Nat.le_refl 82) (by decide) 0 0⟩

/-- C10, refuted as stated: with hole count 35, a full board and index draws
that are all `0`, the hole-clearing loop exits for no amount of fuel: the first
draw is counted, and every later draw hits the cell already zeroed. -/
theorem clearHoles_zeroDraw_diverges :
    ¬ ∃ fuel, (clearHoles zeroDraw (JSValue.number 35) fuel sampleSolution 0 0).isSome = true := by
  rintro ⟨fuel, h⟩
  cases fuel with
  | zero => simp [clearHoles] at h
  | succ fuel =>
    have e : clearHoles zeroDraw (JSValue.number 35) (fuel + 1) sampleSolution 0 0 =
        clearHoles zeroDraw (JSValue.number 35) fuel (sampleSolution.set 0 0) 1 1 := by
      rw [clearHoles]
      rfl
    rw [e, clearHoles_zeroDraw_stuck fuel _ 1 (by decide)] at h
    simp at h

/-- C10, amended: on a full 81-cell board the hole-clearing loop exits
exactly when the draws contain `holes` distinct indices: it exits as soon as
the draws made so far contain that many (with fuel for one more iteration than
those draws), and when it exits within `fuel` iterations the first `fuel`
draws contain that many.  A draw that hits an already-zero cell changes
neither the puzzle nor the counter; and whenever the loop exits, exactly
`holes` draws were counted and exactly `holes` cells are zero. -/
theorem clearHoles_terminates (draw : Nat → Fin 81) (holes : Nat) (b : Board)
    (hlen : b.length = 81) (hfull : ∀ i, i < 81 → b[i]? ≠ some 0) :
    (∀ N fuel, holes ≤ ((Finset.range N).image draw).card → N < fuel →
      ∃ q, clearHoles draw (JSValue.number holes) fuel b 0 0 = some (q, holes)) ∧
    (∀ fuel q a, clearHoles draw (JSValue.number holes) fuel b 0 0 = some (q, a) →
      holes ≤ ((Finset.range fuel).image draw).card) ∧
    (∀ fuel (p : Board) a d, a < holes → p[(draw d).val]? = some 0 →
      clearHoles draw (JSValue.number holes) (fuel + 1) p a d =
        clearHoles draw (JSValue.number holes) fuel p a (d + 1)) ∧
    (∀ fuel q a, clearHoles draw (JSValue.number holes) fuel b 0 0 = some (q, a) →
      a = holes ∧ q.count 0 = holes ∧ q.length = 81) := by
  have heq : ∀ N, (((Finset.range N).image (fun j => draw (0 + j))).filter
      (fun x : Fin 81 => b[x.val]? ≠ some 0)) = (Finset.range N).image draw := by
    intro N
    simp only [Nat.zero_add]
    apply Finset.filter_true_of_mem
    intro x _
    exact hfull x.val x.isLt
  refine ⟨fun N fuel hN hfuel => ?_, fun fuel q a h => ?_, fun fuel p a d ha hp => ?_,
    fun fuel q a h => ?_⟩
  · apply clearHoles_exits_aux draw holes N b 0 0 fuel (Nat.zero_le _) _ hfuel
    rw [heq]
    omega
  · have hle := clearHoles_counted_le draw _ fuel b 0 0 q a hlen h
    have ha := (clearHoles_inv draw _ fuel b 0 0 q a h).2.2.2.2.2 holes rfl (Nat.zero_le _)
    rw [heq] at hle
    omega
  · rw [clearHoles]
    simp [attemptsLt, ha, hp]
  · obtain ⟨h1, _, _, _, h5, h6⟩ := clearHoles_inv draw _ fuel b 0 0 q a h
    have hz : b.count 0 = 0 := by
      rw [List.count_eq_zero]
      intro hmem
      obtain ⟨i, hi⟩ := List.mem_iff_getElem?.1 hmem
      exact hfull i (by rw [← hlen]; exact lt_length_of_getElem? hi) hi
    have ha := h6 holes rfl (Nat.zero_le _)
    have := h5 hlen
    exact ⟨ha, by omega, by rw [h1, hlen]⟩

/-- C10 amended, at hole count 35, the grid `sampleSolution` and the draws
`0, 1, 2, ...`. -/
theorem clearHoles_terminates_witness :
    sampleSolution.length = 81 ∧ (∀ i, i < 81 → sampleSolution[i]? ≠ some 0) ∧
    ((∀ N fuel, 35 ≤ ((Finset.range N).image sampleDraw).card → N < fuel →
      ∃ q, clearHoles sampleDraw (JSValue.number 35) fuel sampleSolution 0 0 = some (q, 35)) ∧
    (∀ fuel q a, clearHoles sampleDraw (JSValue.number 35) fuel sampleSolution 0 0
        = some (q, a) → 35 ≤ ((Finset.range fuel).image sampleDraw).card) ∧
    (∀ fuel (p : Board) a d, a < 35 → p[(sampleDraw d).val]? = some 0 →
      clearHoles sampleDraw (JSValue.number 35) (fuel + 1) p a d =
        clearHoles sampleDraw (JSValue.number 35) fuel p a (d + 1)) ∧
    (∀ fuel q a, clearHoles sampleDraw (JSValue.number 35) fuel sampleSolution 0 0
        = some (q, a) → a = 35 ∧ q.count 0 = 35 ∧ q.length = 81)) :=
  ⟨rfl, (fills_zeroBoard_full sampleSolution fills_zeroBoard_sample).2.1,
    clearHoles_terminates sampleDraw 35 sampleSolution rfl
      (fills_zeroBoard_full sampleSolution fills_zeroBoard_sample).2.1⟩

/-- C11: on an 81-cell board, whatever the candidate orders are, `solve`
returns as soon as its fuel, the number of nested activations it may use,
exceeds the number of zero cells (at most 81): the recursion below the first
call is never deeper than the number of zero cells.  The recursive calls of a
call on `b` are made only on boards `b.set i c`, with `i` the first empty cell
and `c` a candidate passing `isValid`, and each of these has exactly one zero
cell fewer than `b`. -/
theorem solve_terminates_depth (ord : Nat → List Int) (b : Board) (hlen : b.length = 81) :
    b.count 0 ≤ 81 ∧
    (∀ fuel k, b.count 0 < fuel → ∃ res, solve ord fuel b k = some res) ∧
    (∀ fuel k i, firstEmpty b = some i →
      (∀ c, isValid b i c = true → (b.set i c).count 0 + 1 = b.count 0) ∧
      (∀ recur : Board → Nat → Option SolveResult,
        (∀ c k', isValid b i c = true →
          recur (b.set i c) k' = solve ord fuel (b.set i c) k') →
        solve ord (fuel + 1) b k = tryNums recur i (ord k) b (k + 1))) := by
  refine ⟨?_, fun fuel k h => solve_total ord fuel b k h, fun fuel k i e => ?_⟩
  · rw [← hlen]
    exact List.count_le_length 0 b
  · obtain ⟨hi, hb, _⟩ := firstEmpty_some b i e
    refine ⟨fun c hv => ?_, fun recur hagree => ?_⟩
    · apply count_zero_set b i c hb
      intro e0
      subst e0
      exact isValid_cell_ne b i 0 hi hv hb
    · rw [solve, e]
      simp only
      exact (tryNums_congr (solve ord fuel) recur (solve_false_board ord fuel) i b hb hagree
        (ord k) (k + 1)).symm

/-- C11, at the all-zero board with the identity candidate order. -/
theorem solve_terminates_depth_witness :
    zeroBoard.length = 81 ∧
    (zeroBoard.count 0 ≤ 81 ∧
    (∀ fuel k, zeroBoard.count 0 < fuel → ∃ res, solve idOrd fuel zeroBoard k = some res) ∧
    (∀ fuel k i, firstEmpty zeroBoard = some i →
      (∀ c, isValid zeroBoard i c = true →
        (zeroBoard.set i c).count 0 + 1 = zeroBoard.count 0) ∧
      (∀ recur : Board → Nat → Option SolveResult,
        (∀ c k', isValid zeroBoard i c = true →
          recur (zeroBoard.set i c) k' = solve idOrd fuel (zeroBoard.set i c) k') →
        solve idOrd (fuel + 1) zeroBoard k = tryNums recur i (idOrd k) zeroBoard (k + 1)))) :=
  ⟨rfl, solve_terminates_depth idOrd zeroBoard rfl⟩

/-- C12: whatever the board and the candidate orders are, when `solve`
returns `false` the board it leaves is the board it was given, cell for
cell. -/
theorem solve_false_restores (ord : Nat → List Int) (fuel : Nat) (b : Board) (k : Nat)
    (F : Board) (k' : Nat) (h : solve ord fuel b k = some (false, F, k')) :
    F = b ∧ ∀ i : Nat, F[i]? = b[i]? := by
  have hF := solve_false_board ord fuel b k F k' h
  exact ⟨hF, fun i => by rw [hF]⟩

/-- C12, at `stuckBoard`: the search places 8 in cell 79, fails at cell 80,
takes the 8 back and returns `false`. -/
theorem solve_false_restores_witness :
    solve idOrd 3 stuckBoard 0 = some (false, stuckBoard, 2) ∧
    (stuckBoard = stuckBoard ∧ ∀ i : Nat, stuckBoard[i]? = stuckBoard[i]?) :=
  ⟨by decide, solve_false_restores idOrd 3 stuckBoard 0 stuckBoard 2 (by decide)⟩

/-- C13: in every state reached from `startNewGame()` by a sequence of
`selectCell`, `handleInput`, `erase`, `undo` and `useHint`, the grid and every
snapshot of the history have, at each index `0..80`, either `0` or the cell of
the solution, and the given cell wherever `initialGrid` is not `0`; the
solution and `initialGrid` are those `startNewGame()` set; and when `checkWin`
finds no `0` in the grid, the grid is the solution. -/
theorem session_invariant (ord : Nat → List Int) (draw : Nat → Fin 81) (fuel : Nat)
    (difficulty : String) (s0 : GameState)
    (h0 : startNewGame ord draw fuel difficulty = some s0) (actions : List Action) :
    GridOk (run s0 actions).solution (run s0 actions).initialGrid (run s0 actions).grid ∧
    (∀ snapshot, snapshot ∈ (run s0 actions).history →
      GridOk (run s0 actions).solution (run s0 actions).initialGrid snapshot) ∧
    (run s0 actions).solution = s0.solution ∧
    (run s0 actions).initialGrid = s0.initialGrid ∧
    (checkWin (run s0 actions) = true → (run s0 actions).grid = (run s0 actions).solution) := by
  obtain ⟨h1, h2, h3, h4⟩ :=
    sessionInv_run s0 actions (sessionInv_start ord draw fuel difficulty s0 h0).1
  refine ⟨h3, h4, (run_fixed s0 actions).1, (run_fixed s0 actions).2, fun hwin => ?_⟩
  have hno : (0 : Int) ∉ (run s0 actions).grid := by
    intro hmem
    simp only [checkWin, Bool.not_eq_true', List.contains_eq_any_beq, List.any_eq_false,
      beq_iff_eq] at hwin
    exact hwin 0 hmem rfl
  apply List.ext_getElem?
  intro i
  by_cases hi : i < 81
  · rcases (h3.2 i hi).1 with e | e
    · exact absurd (List.getElem?_mem e) hno
    · exact e
  · rw [List.getElem?_eq_none (by rw [h3.1]; omega), List.getElem?_eq_none (by rw [h1]; omega)]

/-- C13, at the session `sampleStart` after a click on cell 0, a wrong digit, the
right digit, an erase, an undo and a hint. -/
theorem session_invariant_witness :
    startNewGame sampleOrd sampleDraw 82 "easy" = some sampleStart ∧
    (GridOk
      (run sampleStart [.selectCell 0, .handleInput 9, .handleInput 1, .erase, .undo,
        .useHint]).solution
      (run sampleStart [.selectCell 0, .handleInput 9, .handleInput 1, .erase, .undo,
        .useHint]).initialGrid
      (run sampleStart [.selectCell 0, .handleInput 9, .handleInput 1, .erase, .undo,
        .useHint]).grid ∧
    (∀ snapshot, snapshot ∈ (run sampleStart [.selectCell 0, .handleInput 9, .handleInput 1,
        .erase, .undo, .useHint]).history →
      GridOk
        (run sampleStart [.selectCell 0, .handleInput 9, .handleInput 1, .erase, .undo,
          .useHint]).solution
        (run sampleStart [.selectCell 0, .handleInput 9, .handleInput 1, .erase, .undo,
          .useHint]).initialGrid snapshot) ∧
    (run sampleStart [.selectCell 0, .handleInput 9, .handleInput 1, .erase, .undo,
      .useHint]).solution = sampleStart.solution ∧
    (run sampleStart [.selectCell 0, .handleInput 9, .handleInput 1, .erase, .undo,
      .useHint]).initialGrid = sampleStart.initialGrid ∧
    (checkWin (run sampleStart [.selectCell 0, .handleInput 9, .handleInput 1, .erase, .undo,
        .useHint]) = true →
      (run sampleStart [.selectCell 0, .handleInput 9, .handleInput 1, .erase, .undo,
        .useHint]).grid =
      (run sampleStart [.selectCell 0, .handleInput 9, .handleInput 1, .erase, .undo,
        .useHint]).solution)) :=
  ⟨startNewGame_sample,
    session_invariant sampleOrd sampleDraw 82 "easy" sampleStart startNewGame_sample
      [.selectCell 0, .handleInput 9, .handleInput 1, .erase, .undo, .useHint]⟩

/-- C14, at the failing input: from the session `sampleStart`, a click on the
empty cell 0 (whose solution digit is 1) followed by the wrong digit 9 four
times.  After the third, `mistakes` is 3 and `endGame(false)` is called, which
writes no field; the fourth is accepted all the same, `mistakes` becomes 4,
above `maxMistakes`, and `updateMistakeUI()` asks for a repeat count of -1. -/
theorem mistakes_exceed_maxMistakes :
    startNewGame sampleOrd sampleDraw 82 "easy" = some sampleStart ∧
    maxMistakes = 3 ∧
    (run sampleStart [.selectCell 0, .handleInput 9, .handleInput 9, .handleInput 9]).mistakes
      = 3 ∧
    (run sampleStart [.selectCell 0, .handleInput 9, .handleInput 9, .handleInput 9,
      .handleInput 9]).mistakes = 4 ∧
    updateMistakeUI (run sampleStart [.selectCell 0, .handleInput 9, .handleInput 9,
      .handleInput 9, .handleInput 9]) = none :=
  ⟨startNewGame_sample, rfl, by decide, by decide, by decide⟩

end Sudoku
